import Mathlib

/-!
Verification of the NEAT genetic-engine specification against a shallow
embedding of the Go sources (genome.go, species.go, neat.go / part_012,
neural_network.go).

Modelling conventions, used throughout:

- Go float64 weights, rates and fitness values are modelled as rationals,
  so arithmetic is exact.
- Go maps keyed by a (From, To) pair are built by iterating a slice, so a
  duplicated key keeps the last write; they are modelled by last-wins lookup
  over the underlying slice.  Summing over map entries is modelled as a sum
  over the distinct keys, which is the exact denotation of the Go loop
  because rational addition is commutative.
- Randomness (rand.Float64, rand.Intn, rand.Perm, rand.NormFloat64) is
  modelled by explicit oracle parameters supplying every random draw, so
  every random execution of the Go code corresponds to one oracle value.
- Pointer-mutating Go methods become functions returning the updated value.
- Activation-function bodies other than identity are external mathematics
  (out of scope per the specification), so the sigmoid entry of
  ActivationSet is passed as an explicit parameter; the verified code never
  inspects activation bodies.
-/

namespace Neat

/-- Activation function: a named scalar function, as in activation_func.go. -/
structure ActivationFunc where
  name : String
  fn : ℚ → ℚ

/-- The identity activation, entry "identity" of ActivationSet. -/
def identityAct : ActivationFunc :=
  { name := "identity", fn := fun x => x }

/-- NodeGene from genome.go: node ID, node type, activation. -/
structure NodeGene where
  id : Int
  ntype : String
  activation : ActivationFunc

/-- ConnGene from genome.go.  The Go fields From and To are named src and dst
here because from is a reserved word in Lean. -/
structure ConnGene where
  src : Int
  dst : Int
  weight : ℚ
  disabled : Bool

/-- Genome from genome.go: ID, species ID, node genes, connection genes,
fitness, and the evaluated cache flag. -/
structure Genome where
  id : Int
  speciesId : Int
  nodeGenes : List NodeGene
  connGenes : List ConnGene
  fitness : ℚ
  evaluated : Bool

/-- NewGenome from genome.go (lines 103-124): numInputs input nodes with the
identity activation and ids 0..numInputs-1, then numOutputs output nodes with
the sigmoid activation and ids numInputs..numInputs+numOutputs-1, species id
-1, and an EMPTY connection-gene list (ConnGenes is made with length 0 and
nothing is ever appended).  Counts are Go ints; a non-positive count runs the
corresponding loop zero times, which toNat reproduces. -/
def NewGenome (sigmoid : ActivationFunc) (id : Int) (numInputs numOutputs : Int)
    (initFitness : ℚ) : Genome :=
  { id := id
    speciesId := -1
    nodeGenes :=
      (List.range numInputs.toNat).map
        (fun i => { id := Int.ofNat i, ntype := "input", activation := identityAct })
      ++ (List.range numOutputs.toNat).map
        (fun i => { id := numInputs + Int.ofNat i, ntype := "output", activation := sigmoid })
    connGenes := []
    fitness := initFitness
    evaluated := false }

/-- Key of a connection gene in the innovation maps of genome.go: the
(From, To) pair. -/
def connKey (c : ConnGene) : Int × Int :=
  (c.src, c.dst)

/-- Whether some connection of the slice has the given (From, To) key; this is
the membership test of the Go innovation map built from the slice. -/
def hasConnKey (conns : List ConnGene) (k : Int × Int) : Bool :=
  conns.any (fun c => connKey c == k)

/-- Lookup in the Go innovation map built from the slice: iterating the slice
overwrites earlier entries, so the last connection with the key wins. -/
def lookupLastConn (conns : List ConnGene) (k : Int × Int) : Option ConnGene :=
  (conns.filter (fun c => connKey c == k)).getLast?

/-- Weight of the map entry for a key (0 when absent; only read for present
keys). -/
def lastWeight (conns : List ConnGene) (k : Int × Int) : ℚ :=
  match lookupLastConn conns k with
  | some c => c.weight
  | none => 0

/-- Distinct keys that appear in both genomes: the key set of the matching
map built by Compatibility in genome.go (keyed by pointers of g1, one pointer
per distinct key, value overwritten to the last matching g0 connection). -/
def matchingKeys (g0 g1 : Genome) : List (Int × Int) :=
  ((g0.connGenes.map connKey).dedup).filter (fun k => hasConnKey g1.connGenes k)

/-- Unmatching gene counter of Compatibility: connections of g0 whose key is
absent from the g1 map, plus connections of g1 whose key is absent from the
g0 map (both loops run over the slices, so duplicates count repeatedly). -/
def unmatchingCount (g0 g1 : Genome) : Nat :=
  (g0.connGenes.filter (fun c => !(hasConnKey g1.connGenes (connKey c)))).length
  + (g1.connGenes.filter (fun c => !(hasConnKey g0.connGenes (connKey c)))).length

/-- Compatibility from genome.go (lines 309-354): c0 * U + c1 * W where U is
the unmatching count and W the average absolute weight difference over the
matching map (set to 0 when there is no matching gene; the Go code divides
first and overwrites the NaN, with the same final value). -/
def Compatibility (g0 g1 : Genome) (c0 c1 : ℚ) : ℚ :=
  let keys := matchingKeys g0 g1
  let diffSum :=
    (keys.map (fun k => |lastWeight g0.connGenes k - lastWeight g1.connGenes k|)).sum
  let avgDiff := if keys.length = 0 then 0 else diffSum / (keys.length : ℚ)
  c0 * (unmatchingCount g0 g1 : ℚ) + c1 * avgDiff

theorem hasConnKey_iff (conns : List ConnGene) (k : Int × Int) :
    hasConnKey conns k = true ↔ k ∈ conns.map connKey := by
  unfold hasConnKey
  rw [List.any_eq_true]
  constructor
  · rintro ⟨c, hc, hck⟩
    exact List.mem_map.mpr ⟨c, hc, beq_iff_eq.mp hck⟩
  · intro hk
    rcases List.mem_map.mp hk with ⟨c, hc, hck⟩
    exact ⟨c, hc, beq_iff_eq.mpr hck⟩

theorem mem_matchingKeys (g0 g1 : Genome) (k : Int × Int) :
    k ∈ matchingKeys g0 g1 ↔
      k ∈ g0.connGenes.map connKey ∧ k ∈ g1.connGenes.map connKey := by
  unfold matchingKeys
  rw [List.mem_filter, List.mem_dedup, hasConnKey_iff]

theorem matchingKeys_nodup (g0 g1 : Genome) : (matchingKeys g0 g1).Nodup :=
  (List.nodup_dedup _).filter _

theorem matchingKeys_perm (g0 g1 : Genome) :
    (matchingKeys g0 g1).Perm (matchingKeys g1 g0) := by
  rw [List.perm_ext_iff_of_nodup (matchingKeys_nodup g0 g1) (matchingKeys_nodup g1 g0)]
  intro k
  rw [mem_matchingKeys, mem_matchingKeys, and_comm]

theorem unmatchingCount_comm (g0 g1 : Genome) :
    unmatchingCount g0 g1 = unmatchingCount g1 g0 :=
  Nat.add_comm _ _

theorem Compatibility_comm (g0 g1 : Genome) (c0 c1 : ℚ) :
    Compatibility g0 g1 c0 c1 = Compatibility g1 g0 c0 c1 := by
  have hperm := matchingKeys_perm g0 g1
  have hlen : (matchingKeys g0 g1).length = (matchingKeys g1 g0).length :=
    hperm.length_eq
  have hsum :
      ((matchingKeys g0 g1).map
        (fun k => |lastWeight g0.connGenes k - lastWeight g1.connGenes k|)).sum =
      ((matchingKeys g1 g0).map
        (fun k => |lastWeight g1.connGenes k - lastWeight g0.connGenes k|)).sum := by
    have h1 :
        ((matchingKeys g0 g1).map
          (fun k => |lastWeight g0.connGenes k - lastWeight g1.connGenes k|)).sum =
        ((matchingKeys g1 g0).map
          (fun k => |lastWeight g0.connGenes k - lastWeight g1.connGenes k|)).sum :=
      (hperm.map _).sum_eq
    rw [h1]
    congr 1
    apply List.map_congr_left
    intro k _
    exact abs_sub_comm _ _
  simp only [Compatibility]
  rw [unmatchingCount_comm, hlen, hsum]

theorem Compatibility_eq_zero (g0 g1 : Genome) (h : g0.connGenes = g1.connGenes)
    (c0 c1 : ℚ) : Compatibility g0 g1 c0 c1 = 0 := by
  have hU : unmatchingCount g0 g1 = 0 := by
    unfold unmatchingCount
    rw [h]
    have hfilter : ∀ conns : List ConnGene,
        conns.filter (fun c => !(hasConnKey conns (connKey c))) = [] := by
      intro conns
      apply List.filter_eq_nil_iff.mpr
      intro c hc
      simp only [Bool.not_eq_true', Bool.not_eq_false]
      exact (hasConnKey_iff _ _).mpr (List.mem_map_of_mem connKey hc)
    rw [hfilter]
    rfl
  have hsum :
      ((matchingKeys g0 g1).map
        (fun k => |lastWeight g0.connGenes k - lastWeight g1.connGenes k|)).sum = 0 := by
    apply List.sum_eq_zero
    intro x hx
    rcases List.mem_map.mp hx with ⟨k, _, hk⟩
    rw [← hk, h, sub_self, abs_zero]
  simp only [Compatibility]
  rw [hU, hsum]
  simp

/-- C3: for all genomes a and b and all coefficients c0, c1, the compatibility
distance is symmetric, and it is zero whenever the two genomes carry the same
connection genes (structurally and weight identical), in particular for a
genome compared with itself. -/
theorem claim_C3 :
    (∀ a b : Genome, ∀ c0 c1 : ℚ, Compatibility a b c0 c1 = Compatibility b a c0 c1) ∧
    (∀ a b : Genome, ∀ c0 c1 : ℚ, a.connGenes = b.connGenes →
      Compatibility a b c0 c1 = 0) :=
  ⟨Compatibility_comm, fun a b c0 c1 h => Compatibility_eq_zero a b h c0 c1⟩

/-- Example genome with two connections, used to instantiate claims. -/
def gExA : Genome :=
  { id := 0, speciesId := -1
    nodeGenes :=
      [ { id := 0, ntype := "input", activation := identityAct },
        { id := 1, ntype := "output", activation := identityAct } ]
    connGenes :=
      [ { src := 0, dst := 1, weight := 2, disabled := false },
        { src := 1, dst := 1, weight := 3, disabled := false } ]
    fitness := 0, evaluated := false }

/-- Example genome sharing one connection key with gExA. -/
def gExB : Genome :=
  { id := 1, speciesId := -1
    nodeGenes :=
      [ { id := 0, ntype := "input", activation := identityAct },
        { id := 1, ntype := "output", activation := identityAct } ]
    connGenes :=
      [ { src := 0, dst := 1, weight := 5, disabled := false } ]
    fitness := 0, evaluated := false }

/-- Witness for C3 at concrete genomes: symmetry for gExA, gExB, and zero
distance for gExA against itself. -/
theorem claim_C3_witness :
    Compatibility gExA gExB 1 2 = Compatibility gExB gExA 1 2 ∧
    Compatibility gExA gExA 1 2 = 0 :=
  ⟨claim_C3.1 gExA gExB 1 2, claim_C3.2 gExA gExA 1 2 rfl⟩

/-- C4 (code_bug evidence): NewGenome with 3 inputs and 1 output creates the
4 node genes but ZERO connection genes, not numInputs * numOutputs = 3; the
initial population is not fully connected, contradicting the doc comment of
NewGenome itself ("fully connected input and output layers") and the
specification. -/
theorem claim_C4 :
    ∀ sigmoid : ActivationFunc, ∀ initFitness : ℚ,
      (NewGenome sigmoid 0 3 1 initFitness).connGenes.length = 0 ∧
      (NewGenome sigmoid 0 3 1 initFitness).nodeGenes.length = 4 ∧
      (NewGenome sigmoid 0 3 1 initFitness).connGenes.length ≠ 3 * 1 := by
  intro sigmoid initFitness
  exact ⟨rfl, rfl, by simp [NewGenome]⟩

/-- Witness for C4 at a concrete sigmoid instance and fitness. -/
theorem claim_C4_witness :
    (NewGenome identityAct 0 3 1 0).connGenes.length = 0 ∧
    (NewGenome identityAct 0 3 1 0).nodeGenes.length = 4 ∧
    (NewGenome identityAct 0 3 1 0).connGenes.length ≠ 3 * 1 :=
  claim_C4 identityAct 0

/-- Random draws consumed by one call of Mutate (genome.go lines 201-243).
perturb gives, per connection in slice order, none when the ratePerturb draw
fails and some d when it succeeds with Gaussian noise d; addNode is none when
the rateAddNode draw fails, and some pick encodes rand.Intn by pick modulo the
connection count; addConn likewise carries the two rand.Intn node picks and
the random weight already scaled by 6.0. -/
structure MutationOracle where
  perturb : List (Option ℚ)
  addNode : Option Nat
  addConn : Option (Nat × Nat × ℚ)

/-- Weight-perturbation loop of Mutate: each connection whose draw fired gets
its noise added.  Connections beyond the supplied draws are unchanged. -/
def applyNoise : List ConnGene → List (Option ℚ) → List ConnGene
  | [], _ => []
  | cs, [] => cs
  | c :: cs, none :: ns => c :: applyNoise cs ns
  | c :: cs, some d :: ns => { c with weight := c.weight + d } :: applyNoise cs ns

/-- Whether any perturbation draw fired on an existing connection (this is
what clears the evaluated flag in the perturbation loop). -/
def noiseFired : List ConnGene → List (Option ℚ) → Bool
  | [], _ => false
  | _, [] => false
  | _ :: cs, none :: ns => noiseFired cs ns
  | _ :: _, some _ :: _ => true

/-- Add-node step of Mutate (genome.go lines 212-223): pick a random
connection (rand.Intn modelled by pick modulo length, guarded by the
len != 0 check), append a hidden node with id len(NodeGenes) and the sigmoid
activation, append the two replacement connections (source to new node with
weight 1.0, new node to target with the old weight), and disable the selected
connection in place. -/
def mutateAddNode (sigmoid : ActivationFunc) (g : Genome) (pick : Nat) : Genome :=
  if h : g.connGenes.length = 0 then g
  else
    let i := pick % g.connGenes.length
    let selected := g.connGenes.get ⟨i, Nat.mod_lt _ (Nat.pos_of_ne_zero h)⟩
    let newNodeId : Int := (g.nodeGenes.length : Int)
    { g with
      evaluated := false
      nodeGenes :=
        g.nodeGenes ++ [{ id := newNodeId, ntype := "hidden", activation := sigmoid }]
      connGenes :=
        (g.connGenes.set i { selected with disabled := true })
        ++ [ { src := selected.src, dst := newNodeId, weight := 1, disabled := false },
             { src := newNodeId, dst := selected.dst, weight := selected.weight,
               disabled := false } ] }

/-- Add-connection step of Mutate (genome.go lines 228-242): pick two random
nodes (any roles), clear the evaluated flag, and abort if a connection with
the same (From, To) pair already exists, otherwise append the new connection
with the supplied random weight. -/
def mutateAddConn (g : Genome) (pick0 pick1 : Nat) (w : ℚ) : Genome :=
  if h : g.nodeGenes.length = 0 then g
  else
    let id0 := (g.nodeGenes.get ⟨pick0 % g.nodeGenes.length,
      Nat.mod_lt _ (Nat.pos_of_ne_zero h)⟩).id
    let id1 := (g.nodeGenes.get ⟨pick1 % g.nodeGenes.length,
      Nat.mod_lt _ (Nat.pos_of_ne_zero h)⟩).id
    if g.connGenes.any (fun c => c.src == id0 && c.dst == id1) then
      { g with evaluated := false }
    else
      { g with
        evaluated := false
        connGenes := g.connGenes
          ++ [{ src := id0, dst := id1, weight := w, disabled := false }] }

/-- Mutate from genome.go (lines 201-243): perturb weights, then possibly add
a node, then possibly add a connection, with all draws supplied by the
oracle.  The evaluated flag is cleared exactly when some step fires. -/
def Mutate (sigmoid : ActivationFunc) (g : Genome) (o : MutationOracle) : Genome :=
  let g1 : Genome :=
    { g with
      connGenes := applyNoise g.connGenes o.perturb
      evaluated := g.evaluated && !(noiseFired g.connGenes o.perturb) }
  let g2 := match o.addNode with
    | none => g1
    | some pick => mutateAddNode sigmoid g1 pick
  match o.addConn with
  | none => g2
  | some (p0, p1, w) => mutateAddConn g2 p0 p1 w

theorem applyNoise_nil (cs : List ConnGene) : applyNoise cs [] = cs := by
  cases cs <;> rfl

theorem noiseFired_nil (cs : List ConnGene) : noiseFired cs [] = false := by
  cases cs <;> rfl

/-- Connection selected by the add-node mutation for a given pick. -/
def selectedConn (g : Genome) (pick : Nat) (h : g.connGenes ≠ []) : ConnGene :=
  g.connGenes.get ⟨pick % g.connGenes.length,
    Nat.mod_lt _ (List.length_pos.mpr h)⟩

/-- C2: whenever the add-node mutation fires on a genome with at least one
connection and splits the connection C at index i (source S, target T,
weight W), the result extends the node list by exactly one new hidden node,
the connection list becomes the old list with C disabled in place plus
exactly the two new connections S to newNode with weight 1.0 and newNode to
T with weight W, so node and connection counts grow by exactly 1 and 2; and
the whole Mutate call with only the add-node draw firing is exactly this
step. -/
theorem claim_C2 (sigmoid : ActivationFunc) (g : Genome) (pick : Nat)
    (h : g.connGenes ≠ []) :
    (mutateAddNode sigmoid g pick).nodeGenes =
      g.nodeGenes
        ++ [{ id := (g.nodeGenes.length : Int), ntype := "hidden",
              activation := sigmoid }] ∧
    (mutateAddNode sigmoid g pick).connGenes =
      (g.connGenes.set (pick % g.connGenes.length)
        { selectedConn g pick h with disabled := true })
      ++ [ { src := (selectedConn g pick h).src, dst := (g.nodeGenes.length : Int),
             weight := 1, disabled := false },
           { src := (g.nodeGenes.length : Int), dst := (selectedConn g pick h).dst,
             weight := (selectedConn g pick h).weight, disabled := false } ] ∧
    (mutateAddNode sigmoid g pick).nodeGenes.length = g.nodeGenes.length + 1 ∧
    (mutateAddNode sigmoid g pick).connGenes.length = g.connGenes.length + 2 ∧
    (mutateAddNode sigmoid g pick).evaluated = false ∧
    Mutate sigmoid g ⟨[], some pick, none⟩ = mutateAddNode sigmoid g pick := by
  have hne : ¬ g.connGenes.length = 0 := by
    intro h0
    exact h (List.length_eq_zero.mp h0)
  constructor
  · unfold mutateAddNode
    rw [dif_neg hne]
  constructor
  · unfold mutateAddNode selectedConn
    rw [dif_neg hne]
  constructor
  · unfold mutateAddNode
    rw [dif_neg hne]
    simp
  constructor
  · unfold mutateAddNode
    rw [dif_neg hne]
    simp
  constructor
  · unfold mutateAddNode
    rw [dif_neg hne]
  · unfold Mutate
    simp only [applyNoise_nil, noiseFired_nil, Bool.not_false, Bool.and_true]

/-- Witness for C2: the add-node mutation applied to the concrete genome gExA
(two connections) with pick 0, splitting its first connection 0 -> 1 of
weight 2. -/
theorem claim_C2_witness :
    (mutateAddNode identityAct gExA 0).nodeGenes =
      gExA.nodeGenes ++ [{ id := 2, ntype := "hidden", activation := identityAct }] ∧
    (mutateAddNode identityAct gExA 0).connGenes =
      (gExA.connGenes.set 0 { src := 0, dst := 1, weight := 2, disabled := true })
      ++ [ { src := 0, dst := 2, weight := 1, disabled := false },
           { src := 2, dst := 1, weight := 2, disabled := false } ] ∧
    (mutateAddNode identityAct gExA 0).nodeGenes.length = gExA.nodeGenes.length + 1 ∧
    (mutateAddNode identityAct gExA 0).connGenes.length = gExA.connGenes.length + 2 ∧
    (mutateAddNode identityAct gExA 0).evaluated = false ∧
    Mutate identityAct gExA ⟨[], some 0, none⟩ = mutateAddNode identityAct gExA 0 :=
  claim_C2 identityAct gExA 0 (List.cons_ne_nil _ _)

/-- Config from config.go (the hyperparameter settings used by the engine;
JSON loading and printing are out of scope). -/
structure Config where
  numInputs : Int
  numOutputs : Int
  numGenerations : Int
  populationSize : Int
  initFitness : ℚ
  minimizeFitness : Bool
  survivalRate : ℚ
  stagnationLimit : Int
  ratePerturb : ℚ
  rateAddNode : ℚ
  rateAddConn : ℚ
  rateMutateChild : ℚ
  distanceThreshold : ℚ
  coeffUnmatching : ℚ
  coeffMatching : ℚ

/-- Species from species.go: id, stagnation counter, permanent representative,
best genome with its fitness, and the member list. -/
structure Species where
  id : Int
  stagnation : Int
  representative : Genome
  best : Genome
  bestFitness : ℚ
  members : List Genome

/-- NewSpecies from species.go (lines 19-28): the founding genome becomes the
representative, the best, and the single initial member. -/
def NewSpecies (id : Int) (g : Genome) : Species :=
  { id := id
    stagnation := 0
    representative := g
    best := g
    bestFitness := g.fitness
    members := [g] }

/-- Register from species.go (lines 33-48): append the genome to the members;
when it strictly outperforms the best genome (direction given by
minimizeFitness), it becomes the best and the stagnation counter resets. -/
def Register (s : Species) (g : Genome) (minimizeFitness : Bool) : Species :=
  let s1 : Species := { s with members := s.members ++ [g] }
  if minimizeFitness then
    if g.fitness < s1.best.fitness then
      { s1 with best := g, bestFitness := g.fitness, stagnation := 0 }
    else s1
  else
    if g.fitness > s1.best.fitness then
      { s1 with best := g, bestFitness := g.fitness, stagnation := 0 }
    else s1

/-- Flush from species.go (lines 51-55): empty the membership and reset the
best genome to the representative. -/
def Flush (s : Species) : Species :=
  { s with
    members := []
    best := s.representative
    bestFitness := s.representative.fitness }

/-- Compatibility test of Speciate (part_012 lines 142-160): the distance
between the species representative and the genome is at or below the
configured threshold. -/
def compatible (cfg : Config) (s : Species) (g : Genome) : Bool :=
  decide (Compatibility s.representative g cfg.coeffUnmatching cfg.coeffMatching
    ≤ cfg.distanceThreshold)

/-- Species loop of Speciate: scan the species list in order; register the
genome into the first compatible species, returning none when every species
has been checked without a match. -/
def placeGenome (cfg : Config) (g : Genome) : List Species → Option (List Species)
  | [] => none
  | s :: rest =>
    if compatible cfg s g then
      some (Register s g cfg.minimizeFitness :: rest)
    else
      (placeGenome cfg g rest).map (fun rest' => s :: rest')

/-- One iteration of the genome loop of Speciate: place the genome, or create
a new species with the next species id when no existing species matches. -/
def speciateOne (cfg : Config) (st : List Species × Int) (g : Genome) :
    List Species × Int :=
  match placeGenome cfg g st.1 with
  | some ss => (ss, st.2)
  | none => (st.1 ++ [NewSpecies st.2 g], st.2 + 1)

/-- Speciate from part_012 (lines 142-160): process the population in genome
list order, threading the species list and the next species id. -/
def Speciate (cfg : Config) (population : List Genome) (ss : List Species)
    (nextSpeciesId : Int) : List Species × Int :=
  population.foldl (speciateOne cfg) (ss, nextSpeciesId)

/-- Index of the first species, in species list order, compatible with the
genome.  This definition follows the specification words ("assign to the
first species whose distance is at or below the configured threshold"). -/
def firstCompatIdx (cfg : Config) (g : Genome) : List Species → Option Nat
  | [] => none
  | s :: rest =>
    if compatible cfg s g then some 0
    else (firstCompatIdx cfg g rest).map (· + 1)

theorem placeGenome_eq_firstCompat (cfg : Config) (g : Genome) (ss : List Species) :
    placeGenome cfg g ss =
      (firstCompatIdx cfg g ss).map
        (fun i => List.modify (fun s => Register s g cfg.minimizeFitness) i ss) := by
  induction ss with
  | nil => rfl
  | cons s rest ih =>
    by_cases hc : compatible cfg s g
    · simp only [placeGenome, firstCompatIdx, hc, if_true]
      rfl
    · simp only [placeGenome, firstCompatIdx, hc, Bool.false_eq_true, if_false, ih,
        Option.map_map]
      cases firstCompatIdx cfg g rest with
      | none => rfl
      | some i => rfl

theorem speciateOne_eq_firstCompat (cfg : Config) (ss : List Species) (nid : Int)
    (g : Genome) :
    speciateOne cfg (ss, nid) g =
      match firstCompatIdx cfg g ss with
      | some i => (List.modify (fun s => Register s g cfg.minimizeFitness) i ss, nid)
      | none => (ss ++ [NewSpecies nid g], nid + 1) := by
  unfold speciateOne
  rw [placeGenome_eq_firstCompat]
  cases firstCompatIdx cfg g ss with
  | none => rfl
  | some i => rfl

/-- C5: one speciation step assigns the genome to the first species, in
species list order, whose representative is at compatibility distance at or
below the configured threshold (registering it as a member there), and
creates a new species carrying the next species id with the genome as its
representative when no existing species is compatible; the full Speciate pass
performs this step for each genome in population order. -/
theorem claim_C5 :
    (∀ cfg : Config, ∀ ss : List Species, ∀ nid : Int, ∀ g : Genome,
      speciateOne cfg (ss, nid) g =
        match firstCompatIdx cfg g ss with
        | some i => (List.modify (fun s => Register s g cfg.minimizeFitness) i ss, nid)
        | none => (ss ++ [NewSpecies nid g], nid + 1)) ∧
    (∀ cfg : Config, ∀ pop : List Genome, ∀ ss : List Species, ∀ nid : Int,
      Speciate cfg pop ss nid = pop.foldl (speciateOne cfg) (ss, nid)) :=
  ⟨speciateOne_eq_firstCompat, fun _ _ _ _ => rfl⟩

/-- Ascending node-id order used by the sort at the top of NewNeuralNetwork. -/
def nodeLe (a b : NodeGene) : Prop :=
  a.id ≤ b.id

instance : DecidableRel nodeLe :=
  fun a b => (inferInstance : Decidable (a.id ≤ b.id))

instance : IsTotal NodeGene nodeLe :=
  ⟨fun a b => le_total a.id b.id⟩

instance : IsTrans NodeGene nodeLe :=
  ⟨fun _ _ _ h1 h2 => le_trans h1 h2⟩

/-- Neuron from neural_network.go.  The Go Synapses field is a map from
source-neuron pointer to weight; pointers are modelled by positions in the
neuron list of the network, and the map by a last-write-wins association
list. -/
structure Neuron where
  id : Int
  ntype : String
  signal : ℚ
  synapses : List (Nat × ℚ)
  activation : ActivationFunc
  activated : Bool

/-- NewNeuron from neural_network.go (lines 42-51). -/
def NewNeuron (n : NodeGene) : Neuron :=
  { id := n.id
    ntype := n.ntype
    signal := 0
    synapses := []
    activation := n.activation
    activated := false }

/-- NeuralNetwork from neural_network.go. -/
structure NeuralNetwork where
  numInputs : Nat
  numOutputs : Nat
  neurons : List Neuron

/-- Entry insertion for the Go synapse map: a second write to the same source
neuron overwrites the first. -/
def upsertSynapse : List (Nat × ℚ) → Nat → ℚ → List (Nat × ℚ)
  | [], j, w => [(j, w)]
  | (k, v) :: rest, j, w =>
    if k = j then (j, w) :: rest else (k, v) :: upsertSynapse rest j w

/-- The sort.Search call of NewNeuralNetwork: the smallest index whose neuron
id is at least the target (a binary search over the id-sorted neuron list,
which agrees with the first such index), accepted only when the id at that
index equals the target. -/
def findNeuronIdx (ns : List Neuron) (target : Int) : Option Nat :=
  match ns.findIdx? (fun n => decide (target ≤ n.id)) with
  | none => none
  | some i =>
    match ns[i]? with
    | some n => if n.id = target then some i else none
    | none => none

/-- Wiring loop body of NewNeuralNetwork (lines 112-124): an enabled
connection whose source and target ids are both found adds a synapse entry on
the target neuron. -/
def wireConn (ns : List Neuron) (c : ConnGene) : List Neuron :=
  if c.disabled then ns
  else
    match findNeuronIdx ns c.src with
    | none => ns
    | some inIdx =>
      match findNeuronIdx ns c.dst with
      | none => ns
      | some outIdx =>
        List.modify (fun n => { n with synapses := upsertSynapse n.synapses inIdx c.weight })
          outIdx ns

/-- NewNeuralNetwork from neural_network.go (lines 94-126).  The Go function
first sorts g.NodeGenes in place by ascending id with the unstable
sort.Slice; the model uses insertion sort, a sorted permutation and hence one
admissible outcome of that call.  Input and output neurons are counted by
node type, and every enabled connection is wired.  The sorted node list is
returned as the updated genome, reflecting the in-place mutation of the
argument. -/
def NewNeuralNetwork (g : Genome) : NeuralNetwork × Genome :=
  let sorted := List.insertionSort nodeLe g.nodeGenes
  let numInputs := (sorted.filter (fun n => n.ntype == "input")).length
  let numOutputs := (sorted.filter (fun n => n.ntype == "output")).length
  let neurons := g.connGenes.foldl wireConn (sorted.map NewNeuron)
  (⟨numInputs, numOutputs, neurons⟩, { g with nodeGenes := sorted })

/-- Activate from neural_network.go (lines 68-82), fuel indexed.  A neuron
that is already activated or has no incoming synapses returns its held
signal; otherwise it marks itself activated, sums the recursively activated
source signals times weights, applies its activation function, caches and
returns the result.  Every nested Go call chain marks a fresh neuron, so its
depth is at most the neuron count plus one and any fuel beyond that bound is
never exhausted; out-of-range indices return signal 0 without effect. -/
def Activate : Nat → List Neuron → Nat → ℚ × List Neuron
  | 0, ns, _ => (0, ns)
  | fuel + 1, ns, i =>
    match ns[i]? with
    | none => (0, ns)
    | some n =>
      if n.activated || n.synapses.isEmpty then (n.signal, ns)
      else
        let ns1 := ns.set i { n with activated := true }
        let r := n.synapses.foldl
          (fun (acc : ℚ × List Neuron) jw =>
            let vs := Activate fuel acc.2 jw.1
            (acc.1 + vs.1 * jw.2, vs.2))
          ((0 : ℚ), ns1)
        let out := n.activation.fn r.1
        (out, List.modify (fun m => { m with signal := out }) i r.2)

/-- Input-registration loop of FeedForward: the first numInputs neurons (in
sorted order) receive the input vector as their signals. -/
def setInputs : List Neuron → List ℚ → Nat → List Neuron
  | [], _, _ => []
  | ns, _, 0 => ns
  | n :: ns, inputs, k + 1 =>
    { n with signal := inputs.getD 0 n.signal } :: setInputs ns (inputs.drop 1) k

/-- FeedForward from neural_network.go (lines 139-162): reject an input
vector whose length differs from the input-neuron count with a shape error
and no state change; otherwise register the inputs, activate each output
neuron in order collecting the outputs, and finally clear every activated
flag (signals are kept). -/
def FeedForward (net : NeuralNetwork) (inputs : List ℚ) :
    Except String (List ℚ) × NeuralNetwork :=
  if inputs.length ≠ net.numInputs then
    (Except.error ("Invalid number of inputs: " ++ toString net.numInputs
      ++ " != " ++ toString inputs.length), net)
  else
    let ns0 := setInputs net.neurons inputs net.numInputs
    let r := (List.range net.numOutputs).foldl
      (fun (acc : List ℚ × List Neuron) k =>
        let vs := Activate (acc.2.length + 1) acc.2 (net.numInputs + k)
        (acc.1 ++ [vs.1], vs.2))
      (([] : List ℚ), ns0)
    (Except.ok r.1, { net with neurons := r.2.map (fun n => { n with activated := false }) })

/-- C8: feeding a network an input vector whose length differs from its
input-neuron count returns exactly the shape error (with the counts in the
message) and the unchanged network, with no output vector and no neuron
state modified. -/
theorem claim_C8 (net : NeuralNetwork) (inputs : List ℚ)
    (h : inputs.length ≠ net.numInputs) :
    FeedForward net inputs =
      (Except.error ("Invalid number of inputs: " ++ toString net.numInputs
        ++ " != " ++ toString inputs.length), net) := by
  unfold FeedForward
  rw [if_pos h]

/-- Concrete two-neuron network used to instantiate the shape-error claim. -/
def netEx8 : NeuralNetwork :=
  { numInputs := 1
    numOutputs := 1
    neurons :=
      [ { id := 0, ntype := "input", signal := 0, synapses := [],
          activation := identityAct, activated := false },
        { id := 1, ntype := "output", signal := 0, synapses := [(0, 2)],
          activation := identityAct, activated := false } ] }

/-- Witness for C8: an empty input vector against a one-input network. -/
theorem claim_C8_witness :
    FeedForward netEx8 [] =
      (Except.error ("Invalid number of inputs: " ++ toString netEx8.numInputs
        ++ " != " ++ toString ([] : List ℚ).length), netEx8) :=
  claim_C8 netEx8 [] (by decide)

/-- C10: decoding sorts the NodeGenes of the argument genome in place into
ascending id order - the updated genome holds a permutation of the original
node genes, now sorted - while the connection genes, fitness, evaluated flag
and ids are unchanged. -/
theorem claim_C10 (g : Genome) :
    ((NewNeuralNetwork g).2.nodeGenes).Perm g.nodeGenes ∧
    List.Sorted nodeLe (NewNeuralNetwork g).2.nodeGenes ∧
    (NewNeuralNetwork g).2.connGenes = g.connGenes ∧
    (NewNeuralNetwork g).2.fitness = g.fitness ∧
    (NewNeuralNetwork g).2.evaluated = g.evaluated ∧
    (NewNeuralNetwork g).2.id = g.id ∧
    (NewNeuralNetwork g).2.speciesId = g.speciesId :=
  ⟨List.perm_insertionSort nodeLe g.nodeGenes,
   List.sorted_insertionSort nodeLe g.nodeGenes,
   rfl, rfl, rfl, rfl, rfl⟩

/-- Genome.Evaluate from genome.go (lines 168-174): a genome already carrying
a fitness is skipped; otherwise it is decoded (which sorts its node genes in
place) and the externally supplied evaluation function writes its fitness. -/
def evaluateGenome (eval : NeuralNetwork → ℚ) (g : Genome) : Genome :=
  if g.evaluated then g
  else
    let p := NewNeuralNetwork g
    { p.2 with fitness := eval p.1, evaluated := true }

/-- Insertion into the innovations map of Crossover, preserving first-insert
order with overwrite on an existing key. -/
def insertConn (al : List ((Int × Int) × ConnGene)) (k : Int × Int) (c : ConnGene) :
    List ((Int × Int) × ConnGene) :=
  match al with
  | [] => [(k, c)]
  | (k0, c0) :: rest =>
    if k0 = k then (k0, c) :: rest else (k0, c0) :: insertConn rest k c

/-- Lookup in the innovations map of Crossover. -/
def alFind (al : List ((Int × Int) × ConnGene)) (k : Int × Int) : Option ConnGene :=
  match al with
  | [] => none
  | (k0, c0) :: rest => if k0 = k then some c0 else alFind rest k

/-- Crossover from genome.go (lines 256-294): record all g0 connections in
the innovations map keyed by (From, To); for each g1 connection, swap in the
g1 copy with probability one half when the key exists (draw supplied by swap,
indexed by position in g1), otherwise add it.  Node genes are copied from the
parent with more nodes (g0 on ties).  The child gets the given id, the Go
zero value 0 for SpeciesID, the map values as connections (modelled in
first-insert order; map iteration order is arbitrary), the initial fitness,
and a clear evaluated flag. -/
def Crossover (id : Int) (g0 g1 : Genome) (initFitness : ℚ) (swap : Nat → Bool) :
    Genome :=
  let al0 := g0.connGenes.foldl (fun al c => insertConn al (connKey c) c) []
  let al := g1.connGenes.enum.foldl
    (fun al ic =>
      match alFind al (connKey ic.2) with
      | some _ => if swap ic.1 then insertConn al (connKey ic.2) ic.2 else al
      | none => insertConn al (connKey ic.2) ic.2)
    al0
  let largerParent := if g0.nodeGenes.length < g1.nodeGenes.length then g1 else g0
  { id := id
    speciesId := 0
    nodeGenes := largerParent.nodeGenes.map
      (fun n => { id := n.id, ntype := n.ntype, activation := n.activation })
    connGenes := al.map
      (fun kc => { src := kc.2.src, dst := kc.2.dst, weight := kc.2.weight,
                   disabled := kc.2.disabled })
    fitness := initFitness
    evaluated := false }

/-- Modelled from the spec: Species.ExplicitFitnessSharing is called by
Reproduce (part_012 line 182) but its body is not among the provided
sources.  Spec section 4.5: within the species, each member fitness is
divided by the member count, after clamping any non-positive fitness to a
small positive floor. -/
def ExplicitFitnessSharing (s : Species) : Species :=
  { s with
    members := s.members.map (fun g =>
      { g with fitness :=
          (if g.fitness ≤ 0 then (1 : ℚ) / 10000 else g.fitness)
            / ((s.members.length : ℚ)) }) }

/-- Sort order used by the sort.Slice call of Reproduce: ascending fitness
when minimizing, descending when maximizing.  The Go sort is unstable; any
sorted permutation is an admissible outcome and insertion sort picks one. -/
def memberOrder (minimize : Bool) (a b : Genome) : Prop :=
  if minimize then a.fitness ≤ b.fitness else b.fitness ≤ a.fitness

instance (m : Bool) : DecidableRel (memberOrder m) := fun a b => by
  unfold memberOrder
  infer_instance

/-- Genome with all-zero fields, used only as the default of list lookups
whose indices are in range on every path that mirrors a real execution. -/
def zeroGenome : Genome :=
  { id := 0, speciesId := 0, nodeGenes := [], connGenes := [], fitness := 0,
    evaluated := false }

/-- Survivor selected by a rand.Perm entry: the entry is always a valid index
into the survivor list, which the modulo models. -/
def getMod (l : List Genome) (k : Nat) : Genome :=
  l.getD (k % l.length) zeroGenome

/-- Random draws consumed by the reproduction of one species: the two
rand.Perm parent indices, the crossover swap draws, the rateMutateChild draw
and the mutation oracle for each child, and the mutation oracle for each
surviving member. -/
structure SpeciesOracle where
  parentPicks : Nat → Nat × Nat
  childSwaps : Nat → Nat → Bool
  childDraw : Nat → Bool
  childMut : Nat → MutationOracle
  survivorMut : Nat → MutationOracle

/-- Reproduction of one species, from Reproduce in part_012 (lines 169-230):
numSurvived is the ceiling of the member count times the survival rate; when
more than two survive and at least one is eliminated, fitness is shared, the
members are sorted by the comparison direction and truncated to the
survivors, each eliminated slot is refilled by a crossover child of two
random survivors (mutated when the rateMutateChild draw fires, or always
when both parents share an id), and then every survivor is mutated and
appended; otherwise every member is mutated and appended.  The accumulator
threads the next-generation list and the next genome id. -/
def reproduceSpecies (sigmoid : ActivationFunc) (cfg : Config) (o : SpeciesOracle)
    (acc : List Genome × Int) (s : Species) : List Genome × Int :=
  let numSurvived : Int := ⌈(s.members.length : ℚ) * cfg.survivalRate⌉
  let numEliminated : Int := (s.members.length : Int) - numSurvived
  if numSurvived > 2 ∧ numEliminated > 0 then
    let shared := ExplicitFitnessSharing s
    let sortedM := List.insertionSort (memberOrder cfg.minimizeFitness) shared.members
    let survivors := sortedM.take numSurvived.toNat
    let afterChildren := (List.range numEliminated.toNat).foldl
      (fun (a : List Genome × Int) i =>
        let p0 := getMod survivors (o.parentPicks i).1
        let p1 := getMod survivors (o.parentPicks i).2
        let child0 := Crossover a.2 p0 p1 cfg.initFitness (o.childSwaps i)
        let child :=
          if o.childDraw i then Mutate sigmoid child0 (o.childMut i)
          else if p0.id = p1.id then Mutate sigmoid child0 (o.childMut i)
          else child0
        (a.1 ++ [child], a.2 + 1))
      acc
    (afterChildren.1
      ++ survivors.enum.map (fun jg => Mutate sigmoid jg.2 (o.survivorMut jg.1)),
     afterChildren.2)
  else
    (acc.1 ++ s.members.enum.map (fun jg => Mutate sigmoid jg.2 (o.survivorMut jg.1)),
     acc.2)

/-- NEAT orchestrator state from part_012 (lines 13-24).  The evaluation
function is passed explicitly where used; the comparison function is derived
from the minimize flag as in NewComparisonFunc; the Statistics field only
records reporting data and is omitted. -/
structure NEAT where
  config : Config
  population : List Genome
  species : List Species
  best : Genome
  nextGenomeId : Int
  nextSpeciesId : Int

/-- NewComparisonFunc from genome.go (lines 363-372): strict fitness
comparison in the configured direction. -/
def comparison (cfg : Config) (g0 g1 : Genome) : Bool :=
  if cfg.minimizeFitness then decide (g0.fitness < g1.fitness)
  else decide (g0.fitness > g1.fitness)

/-- New from part_012 (lines 28-55): build populationSize initial genomes
with consecutive ids, seed the species list with one species whose founder is
a random genome of the population (pick modelled modulo the size), and pick a
random initial best.  A population size of zero or less makes the Go code
panic in rand.Intn (and make, when negative), modelled as none; no
configuration field is validated. -/
def New (sigmoid : ActivationFunc) (cfg : Config) (repPick bestPick : Nat) :
    Option NEAT :=
  if cfg.populationSize ≤ 0 then none
  else
    let pop := (List.range cfg.populationSize.toNat).map
      (fun i => NewGenome sigmoid (Int.ofNat i) cfg.numInputs cfg.numOutputs cfg.initFitness)
    some
      { config := cfg
        population := pop
        species := [NewSpecies 0 (pop.getD (repPick % pop.length) zeroGenome)]
        best := pop.getD (bestPick % pop.length) zeroGenome
        nextGenomeId := cfg.populationSize
        nextSpeciesId := 1 }

/-- Evaluate from part_012 (lines 86-122): every genome is evaluated (the
goroutines write disjoint genomes and the barrier joins them, so the final
state is the pointwise map). -/
def EvaluateAll (eval : NeuralNetwork → ℚ) (st : NEAT) : NEAT :=
  { st with population := st.population.map (evaluateGenome eval) }

/-- Speciation step of the Run loop: thread the species list and next species
id through Speciate. -/
def SpeciateStep (st : NEAT) : NEAT :=
  let r := Speciate st.config st.population st.species st.nextSpeciesId
  { st with species := r.1, nextSpeciesId := r.2 }

/-- Reproduce from part_012 (lines 169-234): accumulate every species
contribution into the next generation, flush each species, and replace the
population. -/
def Reproduce (sigmoid : ActivationFunc) (oracles : Nat → SpeciesOracle) (st : NEAT) :
    NEAT :=
  let r := st.species.enum.foldl
    (fun (a : List Genome × Int) is =>
      reproduceSpecies sigmoid st.config (oracles is.1) a is.2)
    (([] : List Genome), st.nextGenomeId)
  { st with population := r.1, nextGenomeId := r.2, species := st.species.map Flush }

/-- Stagnant-species elimination from Run in part_012 (lines 255-265): only
when more than one species exists, keep exactly the species whose stagnation
counter is at most the limit, incrementing the counter of each survivor. -/
def pruneStagnant (limit : Int) (ss : List Species) : List Species :=
  if ss.length > 1 then
    (ss.filter (fun s => decide (s.stagnation ≤ limit))).map
      (fun s => { s with stagnation := s.stagnation + 1 })
  else ss

/-- Best-genome update at the end of the Run loop (lines 267-272). -/
def updateBest (cfg : Config) (best : Genome) (pop : List Genome) : Genome :=
  pop.foldl (fun b g => if comparison cfg g b then g else b) best

/-- One iteration of Run from part_012 (lines 243-272): evaluate, speciate,
reproduce, eliminate stagnant species, update the best genome. -/
def genStep (sigmoid : ActivationFunc) (eval : NeuralNetwork → ℚ)
    (oracles : Nat → SpeciesOracle) (st : NEAT) : NEAT :=
  let st3 := Reproduce sigmoid oracles (SpeciateStep (EvaluateAll eval st))
  let st4 := { st3 with species := pruneStagnant st3.config.stagnationLimit st3.species }
  { st4 with best := updateBest st4.config st4.best st4.population }

/-- C7 (amended): construction never validates the configuration.  For every
configuration with population size at least one - however invalid the other
fields (negative rates, fewer than one input or output) - New succeeds and
returns a fully built orchestrator whose population has the configured size;
a population size of zero or less causes a runtime panic inside construction
(modelled as none) rather than an error reported to the caller. -/
theorem claim_C7 (sigmoid : ActivationFunc) (cfg : Config) (r b : Nat) :
    (1 ≤ cfg.populationSize →
      (New sigmoid cfg r b).isSome = true ∧
      (New sigmoid cfg r b).map (fun st => st.population.length)
        = some cfg.populationSize.toNat ∧
      (New sigmoid cfg r b).map (fun st => st.config) = some cfg) ∧
    (cfg.populationSize ≤ 0 → New sigmoid cfg r b = none) := by
  constructor
  · intro h1
    have hn : ¬ cfg.populationSize ≤ 0 := by omega
    unfold New
    rw [if_neg hn]
    refine ⟨rfl, ?_, rfl⟩
    simp
  · intro h0
    unfold New
    rw [if_pos h0]

/-- Configuration that the specification calls invalid: zero inputs and
outputs and negative mutation rates, with a positive population size. -/
def cfgBad : Config :=
  { numInputs := 0, numOutputs := 0, numGenerations := 1, populationSize := 5,
    initFitness := 0, minimizeFitness := false, survivalRate := 1/2,
    stagnationLimit := 5, ratePerturb := -1, rateAddNode := -1, rateAddConn := 0,
    rateMutateChild := 0, distanceThreshold := 1, coeffUnmatching := 1,
    coeffMatching := 1 }

/-- Configuration with the invalid population size zero. -/
def cfgZero : Config :=
  { cfgBad with populationSize := 0 }

/-- Counterexample for C7 as stated: construction on a configuration with
zero inputs, zero outputs and negative mutation rates does NOT detect any
error - it succeeds and returns a complete orchestrator state of 5 genomes,
so no error is reported and construction is not aborted. -/
theorem claim_C7_counterexample :
    (New identityAct cfgBad 0 0).isSome = true ∧
    (New identityAct cfgBad 0 0).map (fun st => st.population.length) = some 5 := by
  exact ⟨rfl, rfl⟩

/-- Witness for C7: the amended theorem applied to cfgBad (succeeds without
validation) and to cfgZero (construction panics, returning no state). -/
theorem claim_C7_witness :
    ((New identityAct cfgBad 0 0).isSome = true ∧
      (New identityAct cfgBad 0 0).map (fun st => st.population.length)
        = some cfgBad.populationSize.toNat ∧
      (New identityAct cfgBad 0 0).map (fun st => st.config) = some cfgBad) ∧
    New identityAct cfgZero 0 0 = none :=
  ⟨(claim_C7 identityAct cfgBad 0 0).1 (by decide),
   (claim_C7 identityAct cfgZero 0 0).2 (by decide)⟩

/-- Mutation oracle on which no mutation draw fires: Mutate leaves the genome
unchanged. -/
def noMut : MutationOracle :=
  ⟨[], none, none⟩

/-- Species oracle on which no reproduction draw fires. -/
def trivOracle : SpeciesOracle :=
  ⟨fun _ => (0, 1), fun _ _ => false, fun _ => false, fun _ => noMut, fun _ => noMut⟩

theorem compatible_of_conns_eq (cfg : Config) (hθ : 0 ≤ cfg.distanceThreshold)
    (s : Species) (g : Genome) (h : s.representative.connGenes = g.connGenes) :
    compatible cfg s g = true := by
  unfold compatible
  rw [Compatibility_eq_zero _ _ h]
  exact decide_eq_true hθ

/-- Configuration of the concrete generation-0 run for the population-size
claim: population 3, one input and one output, survival rate 1, distance
threshold 1, both coefficients 1, no mutation. -/
def cfgC1 : Config :=
  { numInputs := 1, numOutputs := 1, numGenerations := 1, populationSize := 3,
    initFitness := 0, minimizeFitness := false, survivalRate := 1,
    stagnationLimit := 5, ratePerturb := 0, rateAddNode := 0, rateAddConn := 0,
    rateMutateChild := 0, distanceThreshold := 1, coeffUnmatching := 1,
    coeffMatching := 1 }

/-- Initial genome of the concrete run (one input, one output, fitness 0). -/
def gInitC1 (i : Int) : Genome :=
  NewGenome identityAct i 1 1 0

/-- The same genome after evaluation marked it evaluated. -/
def gEvalC1 (i : Int) : Genome :=
  { gInitC1 i with evaluated := true }

/-- Orchestrator state produced by New under cfgC1 with both random picks 0:
genomes 0, 1, 2, and one species founded on genome 0, which is both its
representative and already a member. -/
def stC1init : NEAT :=
  { config := cfgC1
    population := [gInitC1 0, gInitC1 1, gInitC1 2]
    species := [NewSpecies 0 (gInitC1 0)]
    best := gInitC1 0
    nextGenomeId := 3
    nextSpeciesId := 1 }

theorem stC1init_eq : New identityAct cfgC1 0 0 = some stC1init := rfl

/-- State after the evaluation phase of generation 0 under the constant-zero
evaluation function. -/
def stC1eval : NEAT :=
  { stC1init with population := [gEvalC1 0, gEvalC1 1, gEvalC1 2] }

theorem stC1eval_eq : EvaluateAll (fun _ => 0) stC1init = stC1eval := rfl

/-- Species 0 after speciation of generation 0: genome 0 is registered AGAIN
on top of its founding membership, so the member list has 4 entries for a
population of 3. -/
def sC1spec : Species :=
  { id := 0
    stagnation := 0
    representative := gInitC1 0
    best := gInitC1 0
    bestFitness := 0
    members := [gInitC1 0, gEvalC1 0, gEvalC1 1, gEvalC1 2] }

theorem stC1spec_eq :
    SpeciateStep stC1eval = { stC1eval with species := [sC1spec] } := by
  have hθ : (0 : ℚ) ≤ cfgC1.distanceThreshold := by decide
  have hc0 : compatible cfgC1 (NewSpecies 0 (gInitC1 0)) (gEvalC1 0) = true :=
    compatible_of_conns_eq cfgC1 hθ _ _ rfl
  have hc1 : compatible cfgC1
      (Register (NewSpecies 0 (gInitC1 0)) (gEvalC1 0) cfgC1.minimizeFitness)
      (gEvalC1 1) = true :=
    compatible_of_conns_eq cfgC1 hθ _ _ rfl
  have hc2 : compatible cfgC1
      (Register (Register (NewSpecies 0 (gInitC1 0)) (gEvalC1 0) cfgC1.minimizeFitness)
        (gEvalC1 1) cfgC1.minimizeFitness)
      (gEvalC1 2) = true :=
    compatible_of_conns_eq cfgC1 hθ _ _ rfl
  simp only [SpeciateStep, Speciate, stC1eval, stC1init, List.foldl, speciateOne,
    placeGenome, hc0, hc1, hc2, if_true]
  rfl

theorem Mutate_noMut (sigmoid : ActivationFunc) (g : Genome) :
    Mutate sigmoid g noMut = g := by
  simp only [Mutate, noMut, applyNoise_nil, noiseFired_nil, Bool.not_false,
    Bool.and_true]

theorem stC1rep_eq :
    Reproduce identityAct (fun _ => trivOracle) { stC1eval with species := [sC1spec] } =
      { stC1eval with
        population := [gInitC1 0, gEvalC1 0, gEvalC1 1, gEvalC1 2]
        species := [Flush sC1spec] } := by
  have hceil : (⌈(4 : ℚ) * (1 : ℚ)⌉ : ℤ) = 4 := by norm_num
  simp [Reproduce, reproduceSpecies, List.enum, List.enumFrom, sC1spec,
    Mutate_noMut, trivOracle, hceil, cfgC1, stC1eval, stC1init]

/-- C1 (code_bug evidence): a full generation-0 pipeline (New, evaluate,
speciate, reproduce, prune, best update) under cfgC1 with population size 3
produces a next-generation population of 4 genomes, because New makes the
randomly picked representative a member of the initial species and Speciate
registers the same genome again.  The member counts just before reproduction
sum to 4, and reproduction transfers every member, so the size-equals-
configured-population invariant fails from the very first generation. -/
theorem claim_C1 :
    cfgC1.populationSize = 3 ∧
    (New identityAct cfgC1 0 0).map
      (fun st => (genStep identityAct (fun _ => 0) (fun _ => trivOracle) st).population.length)
      = some 4 ∧
    (SpeciateStep (EvaluateAll (fun _ => 0) stC1init)).species.map
      (fun s => s.members.length) = [4] := by
  refine ⟨rfl, ?_, ?_⟩
  · rw [stC1init_eq]
    have hg : genStep identityAct (fun _ => 0) (fun _ => trivOracle) stC1init =
        { stC1eval with
          population := [gInitC1 0, gEvalC1 0, gEvalC1 1, gEvalC1 2]
          species := [Flush sC1spec]
          best := gInitC1 0 } := by
      unfold genStep
      rw [stC1eval_eq, stC1spec_eq, stC1rep_eq]
      rfl
    rw [Option.map_some', hg]
    rfl
  · rw [stC1eval_eq, stC1spec_eq]
    rfl

/-- Configuration of the stagnation run: distance threshold 0, stagnation
limit 0, survival rate 1, no mutation. -/
def cfgC6 : Config :=
  { numInputs := 1, numOutputs := 1, numGenerations := 3, populationSize := 3,
    initFitness := 0, minimizeFitness := false, survivalRate := 1,
    stagnationLimit := 0, ratePerturb := 0, rateAddNode := 0, rateAddConn := 0,
    rateMutateChild := 0, distanceThreshold := 0, coeffUnmatching := 1,
    coeffMatching := 1 }

/-- Input node shared by the concrete genomes of the stagnation run. -/
def nodeInC6 : NodeGene :=
  { id := 0, ntype := "input", activation := identityAct }

/-- Output node shared by the concrete genomes of the stagnation run. -/
def nodeOutC6 : NodeGene :=
  { id := 1, ntype := "output", activation := identityAct }

/-- Connectionless genome of species 0. -/
def gA : Genome :=
  { id := 0, speciesId := -1, nodeGenes := [nodeInC6, nodeOutC6], connGenes := [],
    fitness := 0, evaluated := true }

/-- Second connectionless genome of species 0. -/
def gA2 : Genome :=
  { gA with id := 1 }

/-- Genome with one connection, incompatible with species 0 at threshold 0. -/
def gB : Genome :=
  { id := 2, speciesId := -1, nodeGenes := [nodeInC6, nodeOutC6],
    connGenes := [{ src := 0, dst := 1, weight := 1, disabled := false }],
    fitness := 0, evaluated := true }

/-- Species 0 of the stagnation run, already stagnant for one generation
(beyond the limit 0), flushed at the end of the previous generation. -/
def sp0C6 : Species :=
  { id := 0, stagnation := 1, representative := gA, best := gA, bestFitness := 0,
    members := [] }

/-- Species 1 of the stagnation run, likewise stagnant beyond the limit. -/
def sp1C6 : Species :=
  { id := 1, stagnation := 1, representative := gB, best := gB, bestFitness := 0,
    members := [] }

/-- Orchestrator state at the start of the generation in which both species
are eliminated as stagnant.  A state of this shape is what Run reaches after
two generations in which genome 2 acquired its connection by an
add-connection mutation and no fitness ever improved. -/
def stC6 : NEAT :=
  { config := cfgC6
    population := [gA, gA2, gB]
    species := [sp0C6, sp1C6]
    best := gA
    nextGenomeId := 3
    nextSpeciesId := 2 }

/-- C6 (amended): stagnant-species elimination is a species-list operation
that runs after reproduction has already transferred every member into the
next population: the population of a generation step is exactly the output
of Reproduce, unaffected by the pruning; the pruning itself, which runs only
when more than one species exists, keeps exactly the species whose
stagnation counter is at most the limit, incrementing the counters of the
kept species, and leaves a single-species list untouched even when that
species is stagnant. -/
theorem claim_C6 :
    (∀ sigmoid : ActivationFunc, ∀ eval : NeuralNetwork → ℚ,
      ∀ oracles : Nat → SpeciesOracle, ∀ st : NEAT,
      (genStep sigmoid eval oracles st).population =
        (Reproduce sigmoid oracles (SpeciateStep (EvaluateAll eval st))).population) ∧
    (∀ limit : Int, ∀ ss : List Species, 1 < ss.length →
      pruneStagnant limit ss =
        (ss.filter (fun s => decide (s.stagnation ≤ limit))).map
          (fun s => { s with stagnation := s.stagnation + 1 })) ∧
    (∀ limit : Int, ∀ ss : List Species, ¬ 1 < ss.length →
      pruneStagnant limit ss = ss) := by
  refine ⟨fun _ _ _ _ => rfl, fun limit ss h => ?_, fun limit ss h => ?_⟩
  · unfold pruneStagnant
    rw [if_pos h]
  · unfold pruneStagnant
    rw [if_neg h]

/-- Witness for C6 (amended) at the concrete stagnation state: the
generation-step population equals the Reproduce output, the two-species list
with both counters beyond limit 0 is pruned to nothing, and a singleton
stagnant species list is left untouched. -/
theorem claim_C6_witness :
    (genStep identityAct (fun _ => 0) (fun _ => trivOracle) stC6).population =
      (Reproduce identityAct (fun _ => trivOracle)
        (SpeciateStep (EvaluateAll (fun _ => 0) stC6))).population ∧
    pruneStagnant 0 [sp0C6, sp1C6] =
      (([sp0C6, sp1C6]).filter (fun s => decide (s.stagnation ≤ 0))).map
        (fun s => { s with stagnation := s.stagnation + 1 }) ∧
    pruneStagnant 0 [sp0C6] = [sp0C6] :=
  ⟨claim_C6.1 identityAct (fun _ => 0) (fun _ => trivOracle) stC6,
   claim_C6.2.1 0 [sp0C6, sp1C6] (by decide),
   claim_C6.2.2 0 [sp0C6] (by decide)⟩

theorem compatible_C6_gB_false :
    compatible cfgC6
      (Register (Register sp0C6 gA cfgC6.minimizeFitness) gA2 cfgC6.minimizeFitness)
      gB = false := by
  have hval :
      Compatibility
        (Register (Register sp0C6 gA cfgC6.minimizeFitness) gA2
          cfgC6.minimizeFitness).representative
        gB cfgC6.coeffUnmatching cfgC6.coeffMatching = 1 := by
    have hrep :
        (Register (Register sp0C6 gA cfgC6.minimizeFitness) gA2
          cfgC6.minimizeFitness).representative = gA := rfl
    rw [hrep]
    simp [Compatibility, matchingKeys, unmatchingCount, hasConnKey, connKey, gA,
      gB, cfgC6]
  unfold compatible
  rw [hval]
  rfl

/-- Counterexample for C6 as stated: in the concrete generation step from
stC6, species 0 is stagnant beyond the limit (counter 1 > 0) and receives
members gA and gA2 during speciation, the pruning then removes every species
from the species list - yet gA and gA2 (and gB) all appear in the next
generation population, so members of a removed species DO survive into the
next generation. -/
theorem claim_C6_counterexample :
    cfgC6.stagnationLimit = 0 ∧
    (SpeciateStep (EvaluateAll (fun _ => 0) stC6)).species.map
      (fun s => (s.id, s.stagnation, s.members)) =
      [(0, 1, [gA, gA2]), (1, 1, [gB])] ∧
    (genStep identityAct (fun _ => 0) (fun _ => trivOracle) stC6).species = [] ∧
    (genStep identityAct (fun _ => 0) (fun _ => trivOracle) stC6).population =
      [gA, gA2, gB] := by
  have hθ : (0 : ℚ) ≤ cfgC6.distanceThreshold := by decide
  have hcA : compatible cfgC6 sp0C6 gA = true :=
    compatible_of_conns_eq cfgC6 hθ _ _ rfl
  have hcA2 : compatible cfgC6 (Register sp0C6 gA cfgC6.minimizeFitness) gA2 = true :=
    compatible_of_conns_eq cfgC6 hθ _ _ rfl
  have hcB : compatible cfgC6 sp1C6 gB = true :=
    compatible_of_conns_eq cfgC6 hθ _ _ rfl
  have hevA : evaluateGenome (fun _ => (0 : ℚ)) gA = gA := rfl
  have hevA2 : evaluateGenome (fun _ => (0 : ℚ)) gA2 = gA2 := rfl
  have hevB : evaluateGenome (fun _ => (0 : ℚ)) gB = gB := rfl
  have hspec : SpeciateStep (EvaluateAll (fun _ => 0) stC6) =
      { stC6 with species :=
          [Register (Register sp0C6 gA cfgC6.minimizeFitness) gA2 cfgC6.minimizeFitness,
           Register sp1C6 gB cfgC6.minimizeFitness] } := by
    simp only [EvaluateAll, SpeciateStep, Speciate, stC6, List.map, List.foldl,
      speciateOne, placeGenome, hevA, hevA2, hevB, hcA, hcA2, hcB,
      compatible_C6_gB_false, if_true, Bool.false_eq_true, if_false]
    rfl
  have hrep : Reproduce identityAct (fun _ => trivOracle)
      (SpeciateStep (EvaluateAll (fun _ => 0) stC6)) =
      { stC6 with
        population := [gA, gA2, gB]
        species :=
          [Flush (Register (Register sp0C6 gA cfgC6.minimizeFitness) gA2
            cfgC6.minimizeFitness),
           Flush (Register sp1C6 gB cfgC6.minimizeFitness)] } := by
    rw [hspec]
    have hceil2 : (⌈(2 : ℚ) * (1 : ℚ)⌉ : ℤ) = 2 := by norm_num
    have hceil1 : (⌈(1 : ℚ) * (1 : ℚ)⌉ : ℤ) = 1 := by norm_num
    simp [Reproduce, reproduceSpecies, List.enum, List.enumFrom, Mutate_noMut,
      trivOracle, hceil2, hceil1, cfgC6, stC6, Register, sp0C6, sp1C6, Flush,
      gA, gA2, gB]
  have hgen : genStep identityAct (fun _ => 0) (fun _ => trivOracle) stC6 =
      { stC6 with
        population := [gA, gA2, gB]
        species := [] } := by
    unfold genStep
    rw [hrep]
    rfl
  refine ⟨rfl, ?_, ?_, ?_⟩
  · rw [hspec]
    rfl
  · rw [hgen]
  · rw [hgen]

/-- Static data of a neuron: everything Activate reads except the mutable
signal and activated flag. -/
def neuShape (n : Neuron) : Int × String × List (Nat × ℚ) × ActivationFunc :=
  (n.id, n.ntype, n.synapses, n.activation)

/-- Static data of a whole neuron list. -/
def shape (ns : List Neuron) : List (Int × String × List (Nat × ℚ) × ActivationFunc) :=
  ns.map neuShape

/-- Acyclicity of the synapse graph, witnessed by a topological rank: every
synapse source has smaller rank than its target, and (so that the rank also
bounds the recursion depth) in-range indices have rank below the neuron
count.  A finite acyclic graph always admits such a rank. -/
def TopoRanked (ns : List Neuron) (rank : Nat → Nat) : Prop :=
  (∀ i : Nat, ∀ n : Neuron, ns[i]? = some n → ∀ jw ∈ n.synapses, rank jw.1 < rank i) ∧
  (∀ i : Nat, i < ns.length → rank i < ns.length)

/-- Pure denotation of Activate, fuel indexed: the value of a neuron is its
held signal when it has no synapses, and otherwise its activation applied to
the weighted sum of the values of its sources. -/
def valF (ns : List Neuron) : Nat → Nat → ℚ
  | 0, _ => 0
  | f + 1, i =>
    match ns[i]? with
    | none => 0
    | some n =>
      if n.synapses.isEmpty then n.signal
      else n.activation.fn (n.synapses.foldl (fun acc jw => acc + valF ns f jw.1 * jw.2) 0)

/-- Denotation of a neuron in an acyclic network: valF at just enough fuel. -/
def valN (ns : List Neuron) (rank : Nat → Nat) (i : Nat) : ℚ :=
  valF ns (rank i + 1) i

theorem foldl_sum_congr (l : List (Nat × ℚ)) (F G : Nat → ℚ)
    (h : ∀ jw ∈ l, F jw.1 = G jw.1) :
    ∀ a : ℚ, l.foldl (fun acc jw => acc + F jw.1 * jw.2) a
      = l.foldl (fun acc jw => acc + G jw.1 * jw.2) a := by
  induction l with
  | nil => intro a; rfl
  | cons jw rest ih =>
    intro a
    simp only [List.foldl]
    rw [h jw (List.mem_cons_self _ _)]
    exact ih (fun x hx => h x (List.mem_cons_of_mem _ hx)) _

theorem valF_stable (ns : List Neuron) (rank : Nat → Nat)
    (hr : ∀ i : Nat, ∀ n : Neuron, ns[i]? = some n → ∀ jw ∈ n.synapses,
      rank jw.1 < rank i) :
    ∀ r i : Nat, rank i = r → ∀ f g : Nat, r < f → r < g →
      valF ns f i = valF ns g i := by
  intro r
  induction r using Nat.strong_induction_on with
  | _ r ih =>
    intro i hri f g hf hg
    obtain ⟨f1, rfl⟩ : ∃ f1, f = f1 + 1 := ⟨f - 1, by omega⟩
    obtain ⟨g1, rfl⟩ : ∃ g1, g = g1 + 1 := ⟨g - 1, by omega⟩
    show valF ns (f1 + 1) i = valF ns (g1 + 1) i
    unfold valF
    cases hni : ns[i]? with
    | none => rfl
    | some n =>
      simp only
      by_cases hemp : n.synapses.isEmpty
      · rw [if_pos hemp, if_pos hemp]
      · rw [if_neg hemp, if_neg hemp]
        congr 1
        apply foldl_sum_congr
        intro jw hjw
        have hlt : rank jw.1 < r := hri ▸ hr i n hni jw hjw
        exact ih (rank jw.1) hlt jw.1 rfl f1 g1 (by omega) (by omega)

theorem valN_eq_valF (ns : List Neuron) (rank : Nat → Nat)
    (hr : ∀ i : Nat, ∀ n : Neuron, ns[i]? = some n → ∀ jw ∈ n.synapses,
      rank jw.1 < rank i)
    (i f : Nat) (hf : rank i < f) : valF ns f i = valN ns rank i :=
  valF_stable ns rank hr (rank i) i rfl f (rank i + 1) hf (Nat.lt_succ_self _)

theorem shape_rel {st ns0 : List Neuron} (h : shape st = shape ns0) (i : Nat) :
    Option.map neuShape st[i]? = Option.map neuShape ns0[i]? := by
  have h2 := congrArg (fun l => l[i]?) h
  simpa [shape, List.getElem?_map] using h2

theorem shape_rel_some {st ns0 : List Neuron} (h : shape st = shape ns0) {i : Nat}
    {m : Neuron} (hm : st[i]? = some m) :
    ∃ n0 : Neuron, ns0[i]? = some n0 ∧ neuShape n0 = neuShape m := by
  have h2 := shape_rel h i
  rw [hm] at h2
  cases hn : ns0[i]? with
  | none => rw [hn] at h2; exact absurd h2 (by simp)
  | some n0 =>
    rw [hn] at h2
    simp only [Option.map_some'] at h2
    exact ⟨n0, rfl, (Option.some_inj.mp h2).symm⟩

theorem shape_rel_none {st ns0 : List Neuron} (h : shape st = shape ns0) {i : Nat}
    (hm : st[i]? = none) : ns0[i]? = none := by
  have h2 := shape_rel h i
  rw [hm] at h2
  cases hn : ns0[i]? with
  | none => rfl
  | some n0 => rw [hn] at h2; exact absurd h2 (by simp)

theorem shape_set {st : List Neuron} {i : Nat} {m : Neuron} (m' : Neuron)
    (hm : st[i]? = some m) (hsh : neuShape m' = neuShape m) :
    shape (st.set i m') = shape st := by
  apply List.ext_getElem?
  intro j
  simp only [shape, List.getElem?_map, List.getElem?_set]
  by_cases hij : i = j
  · subst hij
    have hlen : i < st.length := by
      by_contra hge
      rw [List.getElem?_eq_none (by omega)] at hm
      exact Option.noConfusion hm
    rw [if_pos rfl, if_pos hlen, hm]
    simp [hsh]
  · rw [if_neg hij]

theorem shape_modify_signal (st : List Neuron) (i : Nat) (v : ℚ) :
    shape (List.modify (fun mm => { mm with signal := v }) i st) = shape st := by
  apply List.ext_getElem?
  intro j
  simp only [shape, List.getElem?_map, List.getElem?_modify]
  cases st[j]? with
  | none => rfl
  | some m =>
    by_cases hij : i = j
    · simp [hij, neuShape]
    · simp [hij]

/-- Invariant of the memoized traversal: relative to the base state ns0 (the
state right after input registration) and a set G of indices currently being
computed (the gray call stack), the state has the same static data as the
base, source neurons keep their base signals, and every activated neuron
outside G caches exactly its denotation. -/
def Inv (ns0 : List Neuron) (rank : Nat → Nat) (G : Nat → Prop) (st : List Neuron) :
    Prop :=
  shape st = shape ns0 ∧
  (∀ i : Nat, ∀ n0 m : Neuron, ns0[i]? = some n0 → st[i]? = some m →
    n0.synapses = [] → m.signal = n0.signal) ∧
  (∀ i : Nat, ∀ m : Neuron, ¬ G i → st[i]? = some m → m.activated = true →
    m.signal = valN ns0 rank i)

theorem valN_of_none {ns : List Neuron} {i : Nat} (rank : Nat → Nat)
    (hn : ns[i]? = none) : valN ns rank i = 0 := by
  unfold valN
  simp only [valF]
  rw [hn]

theorem valN_of_isEmpty {ns : List Neuron} {i : Nat} (rank : Nat → Nat)
    {n : Neuron} (hn : ns[i]? = some n) (he : n.synapses.isEmpty = true) :
    valN ns rank i = n.signal := by
  unfold valN
  simp only [valF]
  rw [hn]
  simp only [he, if_true]

theorem valN_of_not_isEmpty {ns : List Neuron} {i : Nat} (rank : Nat → Nat)
    {n : Neuron} (hn : ns[i]? = some n) (he : ¬ n.synapses.isEmpty = true) :
    valN ns rank i =
      n.activation.fn
        (n.synapses.foldl (fun acc jw => acc + valF ns (rank i) jw.1 * jw.2) 0) := by
  unfold valN
  simp only [valF]
  rw [hn]
  simp only [he, if_false]
  rfl

theorem Activate_correct (ns0 : List Neuron) (rank : Nat → Nat)
    (hr : ∀ i : Nat, ∀ n : Neuron, ns0[i]? = some n → ∀ jw ∈ n.synapses,
      rank jw.1 < rank i) :
    ∀ r : Nat, ∀ i : Nat, rank i = r → ∀ G : Nat → Prop,
      (∀ g : Nat, G g → r < rank g) →
      ∀ st : List Neuron, ∀ fuel : Nat, Inv ns0 rank G st → r < fuel →
      (Activate fuel st i).1 = valN ns0 rank i ∧
      Inv ns0 rank G (Activate fuel st i).2 := by
  intro r
  induction r using Nat.strong_induction_on with
  | _ r ih =>
    intro i hri G hG st fuel hInv hfuel
    obtain ⟨f, rfl⟩ : ∃ f, fuel = f + 1 := ⟨fuel - 1, by omega⟩
    cases hsti : st[i]? with
    | none =>
      have h0 : ns0[i]? = none := shape_rel_none hInv.1 hsti
      have hstep : Activate (f + 1) st i = (0, st) := by
        simp [Activate, hsti]
      rw [hstep]
      exact ⟨(valN_of_none rank h0).symm, hInv⟩
    | some m =>
      obtain ⟨n0, hn0, hsh⟩ := shape_rel_some hInv.1 hsti
      have hsyn : n0.synapses = m.synapses := congrArg (fun t => t.2.2.1) hsh
      have hactf : n0.activation = m.activation := congrArg (fun t => t.2.2.2) hsh
      by_cases ham : m.activated = true
      · have hstep : Activate (f + 1) st i = (m.signal, st) := by
          simp [Activate, hsti, ham]
        rw [hstep]
        have hiG : ¬ G i := by
          intro h
          have := hG i h
          omega
        exact ⟨hInv.2.2 i m hiG hsti ham, hInv⟩
      · by_cases hemp : m.synapses.isEmpty = true
        · have hstep : Activate (f + 1) st i = (m.signal, st) := by
            simp [Activate, hsti, hemp]
          rw [hstep]
          have hmnil : n0.synapses.isEmpty = true := by
            rw [hsyn]
            exact hemp
          refine ⟨?_, hInv⟩
          rw [valN_of_isEmpty rank hn0 hmnil]
          exact hInv.2.1 i n0 m hn0 hsti (List.isEmpty_iff.mp hmnil)
        · have hnc : ¬ ((m.activated || m.synapses.isEmpty) = true) := by
            intro hh
            rcases Bool.or_eq_true_iff.mp hh with h1 | h1
            · exact ham h1
            · exact hemp h1
          have hG' : ∀ jw : Nat × ℚ, rank jw.1 < r →
              ∀ g : Nat, (G g ∨ g = i) → rank jw.1 < rank g := by
            intro jw hjw g hg
            cases hg with
            | inl h => exact lt_trans hjw (hG g h)
            | inr h =>
              subst h
              omega
          have hranks : ∀ jw ∈ m.synapses, rank jw.1 < r := by
            intro jw hjw
            have := hr i n0 hn0 jw (by rw [hsyn]; exact hjw)
            omega
          have hfold : ∀ sl : List (Nat × ℚ), (∀ jw ∈ sl, rank jw.1 < r) →
              ∀ acc : ℚ, ∀ st' : List Neuron,
              Inv ns0 rank (fun g => G g ∨ g = i) st' →
              (sl.foldl
                  (fun (a : ℚ × List Neuron) jw =>
                    (a.1 + (Activate f a.2 jw.1).1 * jw.2, (Activate f a.2 jw.1).2))
                  (acc, st')).1
                = sl.foldl (fun a jw => a + valN ns0 rank jw.1 * jw.2) acc ∧
              Inv ns0 rank (fun g => G g ∨ g = i)
                ((sl.foldl
                  (fun (a : ℚ × List Neuron) jw =>
                    (a.1 + (Activate f a.2 jw.1).1 * jw.2, (Activate f a.2 jw.1).2))
                  (acc, st')).2) := by
            intro sl
            induction sl with
            | nil =>
              intro _ acc st' hi
              exact ⟨rfl, hi⟩
            | cons jw rest ihsl =>
              intro hrk acc st' hi
              have hjw : rank jw.1 < r := hrk jw (List.mem_cons_self _ _)
              have hcall := ih (rank jw.1) hjw jw.1 rfl (fun g => G g ∨ g = i)
                (fun g hg => hG' jw hjw g hg) st' f hi (by omega)
              simp only [List.foldl]
              rw [hcall.1]
              exact ihsl (fun x hx => hrk x (List.mem_cons_of_mem _ hx))
                (acc + valN ns0 rank jw.1 * jw.2) ((Activate f st' jw.1).2) hcall.2
          have hInv1 : Inv ns0 rank (fun g => G g ∨ g = i)
              (st.set i { m with activated := true }) := by
            refine ⟨?_, ?_, ?_⟩
            · rw [shape_set { m with activated := true } hsti rfl]
              exact hInv.1
            · intro j nj mj hnj hmj hjnil
              rw [List.getElem?_set] at hmj
              by_cases hij : i = j
              · exfalso
                subst hij
                rw [hn0] at hnj
                have hnj0 : n0 = nj := Option.some_inj.mp hnj
                apply hemp
                rw [← hsyn, hnj0, hjnil]
                rfl
              · rw [if_neg hij] at hmj
                exact hInv.2.1 j nj mj hnj hmj hjnil
            · intro j mj hjG hmj hact
              by_cases hij : i = j
              · exact absurd (Or.inr hij.symm) hjG
              · rw [List.getElem?_set, if_neg hij] at hmj
                exact hInv.2.2 j mj (fun h => hjG (Or.inl h)) hmj hact
          have hfm := hfold m.synapses hranks 0
            (st.set i { m with activated := true }) hInv1
          simp only [Activate, hsti]
          rw [if_neg hnc]
          set R := m.synapses.foldl
            (fun (a : ℚ × List Neuron) jw =>
              (a.1 + (Activate f a.2 jw.1).1 * jw.2, (Activate f a.2 jw.1).2))
            ((0 : ℚ), st.set i { m with activated := true }) with hR
          have hfmR1 : R.1
              = m.synapses.foldl (fun a jw => a + valN ns0 rank jw.1 * jw.2) 0 := by
            rw [hR]
            exact hfm.1
          have hfmR2 : Inv ns0 rank (fun g => G g ∨ g = i) R.2 := by
            rw [hR]
            exact hfm.2
          have hval : m.activation.fn R.1 = valN ns0 rank i := by
            rw [hfmR1]
            rw [valN_of_not_isEmpty rank hn0 (by rw [hsyn]; exact hemp)]
            rw [hactf, hsyn]
            congr 1
            apply foldl_sum_congr
            intro jw hjw
            exact (valN_eq_valF ns0 rank hr jw.1 (rank i)
              (hr i n0 hn0 jw (by rw [hsyn]; exact hjw))).symm
          refine ⟨hval, ?_⟩
          show Inv ns0 rank G
            (List.modify (fun mm => { mm with signal := m.activation.fn R.1 }) i R.2)
          refine ⟨?_, ?_, ?_⟩
          · rw [shape_modify_signal]
            exact hfmR2.1
          · intro j nj mj hnj hmj hjnil
            rw [List.getElem?_modify] at hmj
            cases hR2 : R.2[j]? with
            | none =>
              rw [hR2] at hmj
              exact Option.noConfusion hmj
            | some mm =>
              rw [hR2] at hmj
              have hmj' : (if i = j then { mm with signal := m.activation.fn R.1 }
                  else mm) = mj := Option.some_inj.mp hmj
              by_cases hij : i = j
              · exfalso
                subst hij
                rw [hn0] at hnj
                have hnj0 : n0 = nj := Option.some_inj.mp hnj
                apply hemp
                rw [← hsyn, hnj0, hjnil]
                rfl
              · rw [if_neg hij] at hmj'
                exact hfmR2.2.1 j nj mj hnj (hmj' ▸ hR2) hjnil
          · intro j mj hjG hmj hact
            rw [List.getElem?_modify] at hmj
            cases hR2 : R.2[j]? with
            | none =>
              rw [hR2] at hmj
              exact Option.noConfusion hmj
            | some mm =>
              rw [hR2] at hmj
              have hmj' : (if i = j then { mm with signal := m.activation.fn R.1 }
                  else mm) = mj := Option.some_inj.mp hmj
              by_cases hij : i = j
              · rw [if_pos hij] at hmj'
                subst hij
                rw [← hmj']
                exact hval
              · rw [if_neg hij] at hmj'
                exact hfmR2.2.2 j mj
                  (fun h => h.elim hjG (fun he => hij he.symm)) (hmj' ▸ hR2) hact
theorem setInputs_getElem? (ns : List Neuron) (ins : List ℚ) (k i : Nat) :
    (setInputs ns ins k)[i]? =
      (ns[i]?).map
        (fun n => if i < k then { n with signal := ins.getD i n.signal } else n) := by
  induction ns generalizing ins k i with
  | nil => cases k <;> rfl
  | cons n ns ihn =>
    cases k with
    | zero =>
      simp [setInputs]
    | succ k =>
      cases i with
      | zero =>
        simp [setInputs]
      | succ i =>
        rw [show setInputs (n :: ns) ins (k + 1)
          = { n with signal := ins.getD 0 n.signal } :: setInputs ns (ins.drop 1) k
          from rfl]
        simp only [List.getElem?_cons_succ]
        rw [ihn]
        cases ns[i]? with
        | none => rfl
        | some nn =>
          simp only [Option.map_some']
          congr 1
          by_cases hik : i < k
          · rw [if_pos hik, if_pos (Nat.succ_lt_succ hik)]
            congr 1
            rw [List.getD_eq_getElem?_getD, List.getD_eq_getElem?_getD,
              List.getElem?_drop, Nat.add_comm]
          · rw [if_neg hik, if_neg (fun hh => hik (Nat.lt_of_succ_lt_succ hh))]

theorem shape_setInputs (ns : List Neuron) (ins : List ℚ) (k : Nat) :
    shape (setInputs ns ins k) = shape ns := by
  apply List.ext_getElem?
  intro j
  simp only [shape, List.getElem?_map, setInputs_getElem?]
  cases ns[j]? with
  | none => rfl
  | some n =>
    simp only [Option.map_some']
    congr 1
    by_cases hk : j < k
    · rw [if_pos hk]
      rfl
    · rw [if_neg hk]

theorem flags_setInputs (ns : List Neuron) (ins : List ℚ) (k : Nat)
    (h : ∀ n ∈ ns, n.activated = false) :
    ∀ n ∈ setInputs ns ins k, n.activated = false := by
  intro n hn
  obtain ⟨i, hi⟩ := List.getElem?_of_mem hn
  rw [setInputs_getElem?] at hi
  cases hn0 : ns[i]? with
  | none =>
    rw [hn0] at hi
    exact Option.noConfusion hi
  | some n0 =>
    rw [hn0] at hi
    have hin := Option.some_inj.mp hi
    have h0 := h n0 (List.getElem?_mem hn0)
    rw [← hin]
    by_cases hk : i < k
    · simp only [hk, if_true]
      exact h0
    · simp only [hk, if_false]
      exact h0

theorem shape_reset (ns : List Neuron) :
    shape (ns.map (fun n => { n with activated := false })) = shape ns := by
  simp only [shape, List.map_map]
  rfl

theorem topo_edge_transfer {ns ns' : List Neuron} (h : shape ns' = shape ns)
    (rank : Nat → Nat)
    (hr : ∀ i : Nat, ∀ n : Neuron, ns[i]? = some n → ∀ jw ∈ n.synapses,
      rank jw.1 < rank i) :
    ∀ i : Nat, ∀ n : Neuron, ns'[i]? = some n → ∀ jw ∈ n.synapses,
      rank jw.1 < rank i := by
  intro i n hn jw hjw
  obtain ⟨n0, hn0, hsh⟩ := shape_rel_some h hn
  have hsyn : n0.synapses = n.synapses := congrArg (fun t => t.2.2.1) hsh
  exact hr i n0 hn0 jw (by rw [hsyn]; exact hjw)

theorem shape_length {ns ns' : List Neuron} (h : shape ns' = shape ns) :
    ns'.length = ns.length := by
  have := congrArg List.length h
  simpa [shape] using this

theorem valF_congr (ns0 ns1 : List Neuron) (hsh : shape ns0 = shape ns1)
    (hsrc : ∀ i : Nat, ∀ n0 n1 : Neuron, ns0[i]? = some n0 → ns1[i]? = some n1 →
      n0.synapses = [] → n0.signal = n1.signal) :
    ∀ f i : Nat, valF ns0 f i = valF ns1 f i := by
  intro f
  induction f with
  | zero => intro i; rfl
  | succ f ihf =>
    intro i
    simp only [valF]
    cases h0 : ns0[i]? with
    | none =>
      rw [shape_rel_none hsh h0]
    | some n0 =>
      obtain ⟨n1, hn1, hsh1⟩ := shape_rel_some hsh h0
      rw [hn1]
      have hsyn : n1.synapses = n0.synapses := congrArg (fun t => t.2.2.1) hsh1
      have hact : n1.activation = n0.activation := congrArg (fun t => t.2.2.2) hsh1
      simp only
      by_cases hemp : n0.synapses.isEmpty = true
      · rw [if_pos hemp, if_pos (by rw [hsyn]; exact hemp)]
        exact hsrc i n0 n1 h0 hn1 (List.isEmpty_iff.mp hemp)
      · rw [if_neg hemp, if_neg (by rw [hsyn]; exact hemp)]
        rw [hact, hsyn]
        congr 1
        apply foldl_sum_congr
        intro jw _
        exact ihf jw.1

theorem Inv_init (ns0 : List Neuron) (rank : Nat → Nat)
    (hfl : ∀ n ∈ ns0, n.activated = false) :
    Inv ns0 rank (fun _ => False) ns0 := by
  refine ⟨rfl, ?_, ?_⟩
  · intro i n0 m h1 h2 _
    rw [h1] at h2
    rw [Option.some_inj.mp h2]
  · intro i m _ hm hact
    have := hfl m (List.getElem?_mem hm)
    rw [this] at hact
    exact absurd hact (by simp)

theorem outputs_fold_correct (ns0 : List Neuron) (rank : Nat → Nat)
    (hr : ∀ i : Nat, ∀ n : Neuron, ns0[i]? = some n → ∀ jw ∈ n.synapses,
      rank jw.1 < rank i)
    (hbound : ∀ i : Nat, i < ns0.length → rank i < ns0.length) :
    ∀ ks : List Nat, ∀ off : Nat, ∀ accL : List ℚ, ∀ st : List Neuron,
      Inv ns0 rank (fun _ => False) st →
      (ks.foldl
          (fun (acc : List ℚ × List Neuron) k =>
            (acc.1 ++ [(Activate (acc.2.length + 1) acc.2 (off + k)).1],
             (Activate (acc.2.length + 1) acc.2 (off + k)).2))
          (accL, st)).1
        = accL ++ ks.map (fun k => valN ns0 rank (off + k)) ∧
      Inv ns0 rank (fun _ => False)
        ((ks.foldl
          (fun (acc : List ℚ × List Neuron) k =>
            (acc.1 ++ [(Activate (acc.2.length + 1) acc.2 (off + k)).1],
             (Activate (acc.2.length + 1) acc.2 (off + k)).2))
          (accL, st)).2) := by
  intro ks
  induction ks with
  | nil =>
    intro off accL st hi
    exact ⟨by simp, hi⟩
  | cons k rest ihk =>
    intro off accL st hi
    have hlen : st.length = ns0.length := shape_length hi.1
    have hcall : (Activate (st.length + 1) st (off + k)).1 = valN ns0 rank (off + k) ∧
        Inv ns0 rank (fun _ => False) ((Activate (st.length + 1) st (off + k)).2) := by
      by_cases hin : off + k < ns0.length
      · exact Activate_correct ns0 rank hr (rank (off + k)) (off + k) rfl
          (fun _ => False) (fun g hg => absurd hg (fun h => h)) st (st.length + 1) hi
          (by have := hbound (off + k) hin; omega)
      · have hnone : st[off + k]? = none := by
          apply List.getElem?_eq_none
          omega
        have hstep : Activate (st.length + 1) st (off + k) = (0, st) := by
          simp [Activate, hnone]
        rw [hstep]
        refine ⟨?_, hi⟩
        have h0 : ns0[off + k]? = none := by
          apply List.getElem?_eq_none
          omega
        exact (valN_of_none rank h0).symm
    simp only [List.foldl, List.map]
    rw [hcall.1]
    have hrest := ihk off (accL ++ [valN ns0 rank (off + k)])
      ((Activate (st.length + 1) st (off + k)).2) hcall.2
    constructor
    · rw [hrest.1]
      simp
    · exact hrest.2

theorem wireConn_flags (ns : List Neuron) (c : ConnGene)
    (h : ∀ n ∈ ns, n.activated = false) :
    ∀ n ∈ wireConn ns c, n.activated = false := by
  intro n hn
  unfold wireConn at hn
  split at hn
  · exact h n hn
  · split at hn
    · exact h n hn
    · split at hn
      · exact h n hn
      · obtain ⟨i, hi⟩ := List.getElem?_of_mem hn
        rw [List.getElem?_modify] at hi
        cases hm : ns[i]? with
        | none =>
          rw [hm] at hi
          exact Option.noConfusion hi
        | some m =>
          rw [hm] at hi
          have hin : (if _ = i then { m with synapses := _ } else m) = n :=
            Option.some_inj.mp hi
          have h0 := h m (List.getElem?_mem hm)
          rw [← hin]
          split
          · exact h0
          · exact h0

theorem decoded_flags (g : Genome) :
    ∀ n ∈ (NewNeuralNetwork g).1.neurons, n.activated = false := by
  have hbase : ∀ n ∈ (List.insertionSort nodeLe g.nodeGenes).map NewNeuron,
      n.activated = false := by
    intro n hn
    obtain ⟨x, _, hx⟩ := List.mem_map.mp hn
    rw [← hx]
    rfl
  have hfold : ∀ cs : List ConnGene, ∀ ns : List Neuron,
      (∀ n ∈ ns, n.activated = false) →
      ∀ n ∈ cs.foldl wireConn ns, n.activated = false := by
    intro cs
    induction cs with
    | nil => intro ns h n hn; exact h n hn
    | cons c rest ihc =>
      intro ns h n hn
      exact ihc (wireConn ns c) (wireConn_flags ns c h) n hn
  exact hfold g.connGenes _ hbase

/-- C9 (amended): decoding produces a network with every activated flag
clear, and forward evaluation is deterministic across repeated passes on
any network whose synapse graph is acyclic (admits a topological rank):
with all flags clear, two successive successful FeedForward calls on the
same input vector return identical output vectors.  (On cyclic networks -
reachable, since the add-connection mutation never checks direction and can
even add a self-loop - the stale memoized signals feeding the cycle can
change between passes, and the outputs may differ; see the counterexample.) -/
theorem claim_C9 :
    (∀ g : Genome, ∀ n ∈ (NewNeuralNetwork g).1.neurons, n.activated = false) ∧
    (∀ net : NeuralNetwork, ∀ inputs : List ℚ, ∀ rank : Nat → Nat,
      TopoRanked net.neurons rank →
      (∀ n ∈ net.neurons, n.activated = false) →
      ∀ out1 : List ℚ, ∀ net1 : NeuralNetwork, ∀ out2 : List ℚ,
        ∀ net2 : NeuralNetwork,
        FeedForward net inputs = (Except.ok out1, net1) →
        FeedForward net1 inputs = (Except.ok out2, net2) →
        out2 = out1) := by
  refine ⟨decoded_flags, ?_⟩
  intro net inputs rank hrank hflags out1 net1 out2 net2 h1 h2
  obtain ⟨hredge, hrbound⟩ := hrank
  by_cases hL : inputs.length ≠ net.numInputs
  · unfold FeedForward at h1
    rw [if_pos hL] at h1
    exact absurd (congrArg Prod.fst h1) (by simp)
  · have hLen : inputs.length = net.numInputs := not_ne_iff.mp hL
    simp only [FeedForward, hL, if_false, Prod.mk.injEq, Except.ok.injEq] at h1
    obtain ⟨hout1, hnet1⟩ := h1
    -- base state of the first pass
    have hshape0 : shape (setInputs net.neurons inputs net.numInputs)
        = shape net.neurons := shape_setInputs _ _ _
    have hedge0 := topo_edge_transfer hshape0 rank hredge
    have hlen0 : (setInputs net.neurons inputs net.numInputs).length
        = net.neurons.length := shape_length hshape0
    have hbound0 : ∀ i : Nat, i < (setInputs net.neurons inputs net.numInputs).length →
        rank i < (setInputs net.neurons inputs net.numInputs).length := by
      intro i hi
      rw [hlen0] at hi ⊢
      exact hrbound i hi
    have hflags0 := flags_setInputs net.neurons inputs net.numInputs hflags
    have hfold1 := outputs_fold_correct (setInputs net.neurons inputs net.numInputs)
      rank hedge0 hbound0 (List.range net.numOutputs) net.numInputs []
      (setInputs net.neurons inputs net.numInputs)
      (Inv_init _ rank hflags0)
    rw [← hnet1] at h2
    simp only [FeedForward, hL, if_false, Prod.mk.injEq, Except.ok.injEq] at h2
    obtain ⟨hout2, _⟩ := h2
    generalize hST : (List.foldl
        (fun (acc : List ℚ × List Neuron) k =>
          (acc.1 ++ [(Activate (acc.2.length + 1) acc.2 (net.numInputs + k)).1],
            (Activate (acc.2.length + 1) acc.2 (net.numInputs + k)).2))
        ([], setInputs net.neurons inputs net.numInputs)
        (List.range net.numOutputs)).2 = stF at hout2 hfold1
    have hInvF := hfold1.2
    have hsh1 : shape (setInputs
          (List.map (fun n => { n with activated := false }) stF) inputs net.numInputs)
        = shape (setInputs net.neurons inputs net.numInputs) := by
      rw [shape_setInputs, shape_reset, hInvF.1, shape_setInputs]
    have hsh2 : shape (setInputs
          (List.map (fun n => { n with activated := false }) stF) inputs net.numInputs)
        = shape net.neurons := by
      rw [hsh1, shape_setInputs]
    have hedge2 := topo_edge_transfer hsh2 rank hredge
    have hlen2 : (setInputs
          (List.map (fun n => { n with activated := false }) stF) inputs
          net.numInputs).length = net.neurons.length := shape_length hsh2
    have hbound2 : ∀ i : Nat, i < (setInputs
          (List.map (fun n => { n with activated := false }) stF) inputs
          net.numInputs).length →
        rank i < (setInputs
          (List.map (fun n => { n with activated := false }) stF) inputs
          net.numInputs).length := by
      intro i hi
      rw [hlen2] at hi ⊢
      exact hrbound i hi
    have hflagsR : ∀ n ∈ List.map (fun n => { n with activated := false }) stF,
        n.activated = false := by
      intro n hn
      obtain ⟨m, _, hm⟩ := List.mem_map.mp hn
      rw [← hm]
    have hflags2 := flags_setInputs
      (List.map (fun n => { n with activated := false }) stF) inputs net.numInputs
      hflagsR
    have hfold2 := outputs_fold_correct
      (setInputs (List.map (fun n => { n with activated := false }) stF) inputs
        net.numInputs)
      rank hedge2 hbound2 (List.range net.numOutputs) net.numInputs []
      (setInputs (List.map (fun n => { n with activated := false }) stF) inputs
        net.numInputs)
      (Inv_init _ rank hflags2)
    have hsrc' : ∀ i : Nat, ∀ a b : Neuron,
        (setInputs (List.map (fun n => { n with activated := false }) stF) inputs
          net.numInputs)[i]? = some a →
        (setInputs net.neurons inputs net.numInputs)[i]? = some b →
        a.synapses = [] → a.signal = b.signal := by
      intro i a b ha hb hnil
      rw [setInputs_getElem?] at ha hb
      rw [List.getElem?_map] at ha
      cases hsF : stF[i]? with
      | none =>
        rw [hsF] at ha
        exact absurd ha (by simp)
      | some mF =>
        cases hsN : net.neurons[i]? with
        | none =>
          rw [hsN] at hb
          exact absurd hb (by simp)
        | some nN =>
          rw [hsF] at ha
          rw [hsN] at hb
          simp only [Option.map_some'] at ha hb
          have ha' := Option.some_inj.mp ha
          have hb' := Option.some_inj.mp hb
          by_cases hk : i < net.numInputs
          · rw [if_pos hk] at ha' hb'
            rw [← ha', ← hb']
            show inputs.getD i _ = inputs.getD i _
            have hkl : i < inputs.length := by rw [hLen]; exact hk
            rw [List.getD_eq_getElem?_getD, List.getD_eq_getElem?_getD,
              List.getElem?_eq_getElem hkl]
            rfl
          · rw [if_neg hk] at ha' hb'
            have hns0i : (setInputs net.neurons inputs net.numInputs)[i]?
                = some nN := by
              rw [setInputs_getElem?, hsN]
              simp only [Option.map_some']
              rw [if_neg hk]
            have hsynEq : nN.synapses = mF.synapses := by
              obtain ⟨n0, hn0, hshp⟩ := shape_rel_some hInvF.1 hsF
              rw [hn0] at hns0i
              have he : n0 = nN := Option.some_inj.mp hns0i
              rw [← he]
              exact congrArg (fun t => t.2.2.1) hshp
            have hnilN : nN.synapses = [] := by
              rw [hsynEq]
              have hAsyn : a.synapses = mF.synapses := by rw [← ha']
              rw [← hAsyn]
              exact hnil
            have hsig := hInvF.2.1 i nN mF hns0i hsF hnilN
            rw [← ha', ← hb']
            exact hsig
    have hvaleq : ∀ idx : Nat,
        valN (setInputs (List.map (fun n => { n with activated := false }) stF)
          inputs net.numInputs) rank idx
        = valN (setInputs net.neurons inputs net.numInputs) rank idx := by
      intro idx
      exact valF_congr _ _ hsh1 hsrc' (rank idx + 1) idx
    rw [← hout1, ← hout2, hfold1.1, hfold2.1]
    simp only [List.nil_append]
    apply List.map_congr_left
    intro k _
    exact hvaleq (net.numInputs + k)

/-- A one-neuron acyclic network for exercising claim C9: a single output
neuron with no incoming synapses. -/
def netW : NeuralNetwork :=
  { numInputs := 0
    numOutputs := 1
    neurons :=
      [{ id := 0, ntype := "output", signal := 0, synapses := [],
         activation := identityAct, activated := false }] }

theorem netW_topo : TopoRanked netW.neurons (fun i => i) := by
  constructor
  · intro i n hi jw hjw
    match i, hi with
    | 0, hi =>
      rw [← Option.some_inj.mp hi] at hjw
      exact absurd hjw (List.not_mem_nil jw)
    | i + 1, hi =>
      exact Option.noConfusion hi
  · intro i hi
    exact hi

theorem netW_flags : ∀ n ∈ netW.neurons, n.activated = false := by
  intro n hn
  rw [List.mem_singleton.mp hn]

theorem claim_C9_witness :
    FeedForward netW [] = (Except.ok [(0 : ℚ)], netW) ∧
      ([(0 : ℚ)] : List ℚ) = [(0 : ℚ)] :=
  ⟨rfl, claim_C9.2 netW [] (fun i => i) netW_topo netW_flags
    [(0 : ℚ)] netW [(0 : ℚ)] netW rfl rfl⟩

/-- Input and output node genes of the cyclic counterexample genome. -/
def nodeInC9 : NodeGene :=
  { id := 0, ntype := "input", activation := identityAct }

def nodeOutC9 : NodeGene :=
  { id := 1, ntype := "output", activation := identityAct }

/-- A genome whose connection genes contain a self-loop on the output node:
reachable in the Go code, since the add-connection mutation draws both
endpoints uniformly and never rules out cycles or self-loops. -/
def gCyc : Genome :=
  { id := 0
    speciesId := -1
    nodeGenes := [nodeInC9, nodeOutC9]
    connGenes := [⟨0, 1, 1, false⟩, ⟨1, 1, 1, false⟩]
    fitness := 0
    evaluated := false }

/-- The family of network states the decoded gCyc passes through: input
signal sIn, output signal sOut, all flags clear. -/
def cexNet (sIn sOut : ℚ) : NeuralNetwork :=
  { numInputs := 1
    numOutputs := 1
    neurons :=
      [{ id := 0, ntype := "input", signal := sIn, synapses := [],
         activation := identityAct, activated := false },
       { id := 1, ntype := "output", signal := sOut,
         synapses := [(0, 1), (1, 1)], activation := identityAct,
         activated := false }] }

/-- C9 counterexample: on the decoded network of gCyc (a cyclic topology the
mutation operators can produce), the first FeedForward pass on the fixed
input vector of correct length returns output 1 using the stale zero signal
of the self-looping output neuron, while the second pass on the resulting
network returns output 2 - so two successive calls with identical inputs are
NOT identical, refuting the unconditional determinism claim. -/
theorem claim_C9_counterexample :
    FeedForward (NewNeuralNetwork gCyc).1 [(1 : ℚ)]
      = (Except.ok [(1 : ℚ)], cexNet 1 1) ∧
    FeedForward (cexNet 1 1) [(1 : ℚ)]
      = (Except.ok [(2 : ℚ)], cexNet 1 2) ∧
    ([(1 : ℚ)] : List ℚ) ≠ [(2 : ℚ)] := by
  have hdec : (NewNeuralNetwork gCyc).1 = cexNet 0 0 := rfl
  have hs1 : (0 : ℚ) + 1 * 1 + 0 * 1 = 1 := by norm_num
  have hs2 : (0 : ℚ) + 1 * 1 + 1 * 1 = 2 := by norm_num
  have hf1 : FeedForward (cexNet 0 0) [(1 : ℚ)]
      = (Except.ok [(0 : ℚ) + 1 * 1 + 0 * 1],
          cexNet 1 ((0 : ℚ) + 1 * 1 + 0 * 1)) := rfl
  have hf2 : FeedForward (cexNet 1 1) [(1 : ℚ)]
      = (Except.ok [(0 : ℚ) + 1 * 1 + 1 * 1],
          cexNet 1 ((0 : ℚ) + 1 * 1 + 1 * 1)) := rfl
  refine ⟨?_, ?_, ?_⟩
  · rw [hdec, hf1, hs1]
  · rw [hf2, hs2]
  · intro h
    norm_num at h

end Neat
